import Mathlib

/-!
# Cadence contract analyzers: a shallow embedding

Embedding of `tools/contract-analyzer/analyzers/analyzers.go`.

Each analyzer's visit callback (the function handed to `inspector.Preorder`) is a Lean
function from the visited element to an `Outcome`: the diagnostics passed to `report`, in
call order, and the run-time panic that ended the callback, if any.

Conventions:
* a Go `string` is the list of its bytes (`List Nat`, each below 256);
* a Go `int` is an `Int`;
* an interface value or pointer that may be `nil` is an `Option`;
* a Go map lookup `m[k]` on a pointer-keyed map is a total function of the key's address
  that returns the zero value of the element type for an absent key;
* the operations of package `sema` used by the analyzers (type equality, element type,
  the dynamic-type test for optional types, the numeric supertype singletons) live outside
  this file and are taken as parameters, bundled in `Sema`.
-/

namespace Cadence

/-! ## Package `ast`: positions, ranges, nodes -/

/-- A source position: byte offset, line and column (`ast.Position`). -/
structure Position where
  Offset : Int
  Line : Int
  Column : Int
deriving DecidableEq, Repr

/-- Modelled from the spec: `ast.Position.Shifted` is declared in package `ast`, which is not
part of the analyzer file. The spec places the shifted position "one column after" the
original one: the line is kept, column and offset both advance by `length`. -/
def Position.Shifted (position : Position) (length : Int) : Position :=
  { Line := position.Line
    Column := position.Column + length
    Offset := position.Offset + length }

/-- A source range (`ast.Range`). -/
structure Range where
  StartPos : Position
  EndPos : Position
deriving DecidableEq, Repr

/-- What the analyzers observe of an AST node: its identity (the address used as the key of
the elaboration maps) and the values of its `StartPosition()` and `EndPosition()` methods. -/
structure Node where
  ptr : Nat
  StartPos : Position
  EndPos : Position
deriving DecidableEq, Repr

/-- Modelled from the spec: `ast.NewRangeFromPositioned` is declared in package `ast`; it
builds "the node's range" from the node's start and end positions. -/
def NewRangeFromPositioned (node : Node) : Range :=
  { StartPos := node.StartPos, EndPos := node.EndPos }

/-- A function parameter (`ast.Parameter`), with the values of its `StartPosition()` and
`EndPosition()` methods. -/
structure Parameter where
  StartPos : Position
  EndPos : Position
deriving DecidableEq, Repr

/-- A parameter list (`ast.ParameterList`). -/
structure ParameterList where
  Parameters : List Parameter
deriving DecidableEq, Repr

/-- Expressions (`ast.Expression`), with the fields the analyzers read. Every expression kind
the analyzers do not dispatch on is `Other`. -/
inductive Expression where
  | IndexExpression (node : Node)
  | ReferenceExpression (node : Node) (Expression : Expression)
  | InvocationExpression (node : Node) (InvokedExpression : Expression)
  | MemberExpression (node : Node)
  | BinaryExpression (node : Node) (Operation : Nat) (Left Right : Expression)
  | ArrayExpression (node : Node)
  | DictionaryExpression (node : Node)
  | ConditionalExpression (node : Node)
  | FunctionExpression (node : Node) (ParameterList : Option ParameterList)
  | Other (node : Node)
deriving Repr

/-- Elements (`ast.Element`): expressions, function declarations, and everything else. -/
inductive Element where
  | Expression (expression : Expression)
  | FunctionDeclaration (node : Node) (ParameterList : Option ParameterList)
  | Other (node : Node)
deriving Repr

/-- The node data of an expression. -/
def Expression.node : Expression → Node
  | .IndexExpression node => node
  | .ReferenceExpression node _ => node
  | .InvocationExpression node _ => node
  | .MemberExpression node => node
  | .BinaryExpression node _ _ _ => node
  | .ArrayExpression node => node
  | .DictionaryExpression node => node
  | .ConditionalExpression node => node
  | .FunctionExpression node _ => node
  | .Other node => node

/-- The node data of an element. -/
def Element.node : Element → Node
  | .Expression expression => expression.node
  | .FunctionDeclaration node _ => node
  | .Other node => node

/-! ## Package `sema`: the operations the analyzers call -/

/-- The operations and singletons of package `sema` used by the analyzers, over a carrier
`Ty` of non-nil `sema.Type` values.

* `Equal t other` is the method call `t.Equal(other)`; the argument may be `nil`.
* `ElementType t isAssignment` is `t.ElementType(isAssignment)`; the result may be `nil`.
* `IsOptionalType t` is the dynamic-type test `t.(*sema.OptionalType)`.
* the remaining fields are the package-level type singletons and field names. -/
structure Sema (Ty : Type) where
  Equal : Ty → Option Ty → Bool
  ElementType : Ty → Bool → Option Ty
  IsOptionalType : Ty → Bool
  NumberType : Ty
  SignedNumberType : Ty
  IntegerType : Ty
  SignedIntegerType : Ty
  FixedPointType : Ty
  SignedFixedPointType : Ty
  AuthAccountType : Ty
  AuthAccountAddPublicKeyField : String
  AuthAccountRemovePublicKeyField : String

/-- A member (`sema.Member`), with the fields read by the analyzers. -/
structure Member (Ty : Type) where
  ContainerType : Option Ty
  Identifier : String

/-- Member information of a member expression (`sema.MemberInfo`). -/
structure MemberInfo (Ty : Type) where
  Member : Option (Member Ty)

/-- Key and value type of a dictionary entry (`sema.DictionaryEntryType`). -/
structure DictionaryEntryType (Ty : Type) where
  KeyType : Option Ty
  ValueType : Option Ty

/-- The lookup tables of the type checker (`sema.Elaboration`), keyed by node address.
A lookup of an absent key yields the zero value: `none`, the empty list, or a member
information without member. -/
structure Elaboration (Ty : Type) where
  IndexExpressionIndexedTypes : Nat → Option Ty
  MemberExpressionMemberInfos : Nat → MemberInfo Ty
  BinaryExpressionLeftTypes : Nat → Option Ty
  ArrayExpressionArgumentTypes : Nat → List (Option Ty)
  DictionaryExpressionEntryTypes : Nat → List (DictionaryEntryType Ty)
  ConditionalExpressionThenType : Nat → Option Ty
  ConditionalExpressionElseType : Nat → Option Ty

/-! ## Package `analysis`: diagnostics -/

/-- The location identity of a program (`common.Location`). -/
abbrev Location := String

/-- A reported finding (`analysis.Diagnostic`). -/
structure Diagnostic where
  Location : Location
  Range : Range
  Message : String
deriving DecidableEq, Repr

/-- The run-time panics a visit callback can raise. -/
inductive Panic where
  | nilDereference
  | sliceBoundsOutOfRange
  | indexOutOfRange
deriving DecidableEq, Repr

/-- The observable effect of one call of a visit callback: the diagnostics handed to
`report`, in call order, and the panic that ended the call, if any. -/
structure Outcome where
  reported : List Diagnostic
  panic : Option Panic
deriving DecidableEq, Repr

deriving instance DecidableEq for Except

/-! ## Go strings -/

/-- The byte of a string at an `int` offset, if the offset is in range. -/
def byteAt (code : List Nat) (offset : Int) : Option Nat :=
  if 0 ≤ offset then code[offset.toNat]? else none

/-- The slice expression `code[low:high]` on a string: it panics (`none`) unless
`0 <= low <= high <= len(code)`, and otherwise holds the bytes at offsets
`low, ..., high - 1`. -/
def sliceString (code : List Nat) (low high : Int) : Option (List Nat) :=
  if 0 ≤ low ∧ low ≤ high ∧ high ≤ (code.length : Int) then
    some ((code.drop low.toNat).take (high.toNat - low.toNat))
  else
    none

/-- The byte of the comma character. -/
def comma : Nat := 44

/-- The call `strings.ContainsRune(s, r)` for a rune below `utf8.RuneSelf` (0x80), where it is
a search for the single byte `r`. The analyzers call it with the comma only. -/
def ContainsRune (s : List Nat) (r : Nat) : Bool :=
  s.contains r

/-- The UTF-8 encoding of one code point. -/
def encodeRune (c : Nat) : List Nat :=
  if c < 0x80 then [c]
  else if c < 0x800 then [0xC0 + c / 64, 0x80 + c % 64]
  else if c < 0x10000 then [0xE0 + c / 4096, 0x80 + c / 64 % 64, 0x80 + c % 64]
  else [0xF0 + c / 262144, 0x80 + c / 4096 % 64, 0x80 + c / 64 % 64, 0x80 + c % 64]

/-- The bytes of a string literal (its UTF-8 encoding). -/
def bytes (s : String) : List Nat :=
  s.toList.flatMap (fun c => encodeRune c.toNat)

/-! ## Reference to optional analyzer -/

/-- The visit callback of `ReferenceToOptionalAnalyzer` (source lines 51-76). -/
def ReferenceToOptionalAnalyzer.visit {Ty : Type} (S : Sema Ty) (location : Location)
    (elaboration : Elaboration Ty) (element : Element) : Outcome :=
  match element with
  | .Expression (.ReferenceExpression _ expression) =>
    match expression with
    | .IndexExpression indexExpression =>
      match elaboration.IndexExpressionIndexedTypes indexExpression.ptr with
      | none => { reported := [], panic := some .nilDereference }
      | some indexedType =>
        match S.ElementType indexedType false with
        | none => { reported := [], panic := none }
        | some resultType =>
          if S.IsOptionalType resultType then
            { reported :=
                [{ Location := location
                   Range := NewRangeFromPositioned indexExpression
                   Message := "reference to optional" }]
              panic := none }
          else
            { reported := [], panic := none }
    | _ => { reported := [], panic := none }
  | _ => { reported := [], panic := none }

/-! ## Deprecated key functions analyzer -/

/-- The visit callback of `DeprecatedKeyFunctionsAnalyzer` (source lines 113-159). -/
def DeprecatedKeyFunctionsAnalyzer.visit {Ty : Type} [DecidableEq Ty] (S : Sema Ty)
    (location : Location) (elaboration : Elaboration Ty) (element : Element) : Outcome :=
  match element with
  | .Expression (.InvocationExpression node invokedExpression) =>
    match invokedExpression with
    | .MemberExpression memberExpression =>
      let memberInfo := elaboration.MemberExpressionMemberInfos memberExpression.ptr
      match memberInfo.Member with
      | none => { reported := [], panic := none }
      | some member =>
        if member.ContainerType ≠ some S.AuthAccountType then
          { reported := [], panic := none }
        else
          let details : Option String :=
            if member.Identifier = S.AuthAccountAddPublicKeyField then
              some ("replace \x27" ++ S.AuthAccountAddPublicKeyField ++ "\x27 with \x27"
                ++ "keys.add" ++ "\x27")
            else if member.Identifier = S.AuthAccountRemovePublicKeyField then
              some ("replace \x27" ++ S.AuthAccountRemovePublicKeyField ++ "\x27 with \x27"
                ++ "keys.revoke" ++ "\x27")
            else
              none
          match details with
          | none => { reported := [], panic := none }
          | some details =>
            { reported :=
                [{ Location := location
                   Range := NewRangeFromPositioned node
                   Message := "use of deprecated key management API: " ++ details }]
              panic := none }
    | _ => { reported := [], panic := none }
  | _ => { reported := [], panic := none }

/-! ## Number supertype arithmetic operations analyzer -/

/-- The keys of the map `numberSupertypes` (source lines 182-189). -/
def numberSupertypes {Ty : Type} (S : Sema Ty) : List Ty :=
  [ S.NumberType
  , S.SignedNumberType
  , S.IntegerType
  , S.SignedIntegerType
  , S.FixedPointType
  , S.SignedFixedPointType ]

/-- The map lookup `_, ok := numberSupertypes[leftType]`: a `nil` key is never present. -/
def numberSupertypesLookup {Ty : Type} [DecidableEq Ty] (S : Sema Ty)
    (leftType : Option Ty) : Bool :=
  match leftType with
  | none => false
  | some leftType => (numberSupertypes S).contains leftType

/-- The visit callback of `NumberSupertypeBinaryOperationsAnalyzer` (source lines 204-223). -/
def NumberSupertypeBinaryOperationsAnalyzer.visit {Ty : Type} [DecidableEq Ty] (S : Sema Ty)
    (location : Location) (elaboration : Elaboration Ty) (element : Element) : Outcome :=
  match element with
  | .Expression (.BinaryExpression binaryExpression _ _ _) =>
    let leftType := elaboration.BinaryExpressionLeftTypes binaryExpression.ptr
    if !numberSupertypesLookup S leftType then
      { reported := [], panic := none }
    else
      { reported :=
          [{ Location := location
             Range := NewRangeFromPositioned binaryExpression
             Message := "arithmetic operation on number supertype" }]
        panic := none }
  | _ => { reported := [], panic := none }

/-! ## Parameter list missing commas analyzer -/

/-- The result of one iteration of a loop whose body may report one diagnostic:
`.ok none` when nothing is reported, `.ok (some d)` when `d` is reported, `.error p`
when the iteration panics. -/
abbrev Iteration := Except Panic (Option Diagnostic)

/-- Running a loop body over the successive indices: reports accumulate in call order and the
first panic ends the loop. -/
def forRange (body : Nat → Iteration) : List Nat → List Diagnostic → Outcome
  | [], reported => { reported := reported, panic := none }
  | i :: rest, reported =>
    match body i with
    | .error p => { reported := reported, panic := some p }
    | .ok none => forRange body rest reported
    | .ok (some diagnostic) => forRange body rest (reported ++ [diagnostic])

/-- The body of the loop `for i, parameter := range parameters` (source lines 273-300),
at index `i`. -/
def ParameterListMissingCommasAnalyzer.iteration (location : Location) (code : List Nat)
    (parameters : List Parameter) (i : Nat) : Iteration :=
  if i = 0 then
    .ok none
  else
    match parameters[i]?, parameters[i - 1]? with
    | some parameter, some previousParameter =>
      let startOffset := parameter.StartPos.Offset
      let previousEndPos := previousParameter.EndPos
      let previousEndOffset := previousEndPos.Offset
      match sliceString code previousEndOffset startOffset with
      | none => .error .sliceBoundsOutOfRange
      | some gap =>
        if ContainsRune gap comma then
          .ok none
        else
          let diagnosticPos := previousEndPos.Shifted 1
          .ok (some
            { Location := location
              Range := { StartPos := diagnosticPos, EndPos := diagnosticPos }
              Message := "missing comma" })
    | _, _ => .error .indexOutOfRange

/-- The statements after the type switch (source lines 272-300): the read of
`parameterList.Parameters`, which panics on a nil parameter list, and the loop. -/
def ParameterListMissingCommasAnalyzer.visitParameterList (location : Location)
    (code : List Nat) (parameterList : Option ParameterList) : Outcome :=
  match parameterList with
  | none => { reported := [], panic := some .nilDereference }
  | some parameterList =>
    let parameters := parameterList.Parameters
    forRange (ParameterListMissingCommasAnalyzer.iteration location code parameters)
      (List.range parameters.length) []

/-- The visit callback of `ParameterListMissingCommasAnalyzer` (source lines 260-302). -/
def ParameterListMissingCommasAnalyzer.visit (location : Location) (code : List Nat)
    (element : Element) : Outcome :=
  match element with
  | .Expression (.FunctionExpression _ parameterList) =>
    ParameterListMissingCommasAnalyzer.visitParameterList location code parameterList
  | .FunctionDeclaration _ parameterList =>
    ParameterListMissingCommasAnalyzer.visitParameterList location code parameterList
  | _ => { reported := [], panic := none }

/-! ## Supertype inference analyzer -/

/-- The local type `typeTuple` (source lines 342-344). -/
structure typeTuple (Ty : Type) where
  first : Option Ty
  second : Option Ty

/-- The type switch building `typeTuples` (source lines 347-389); `none` is the early
`return` of the callback. -/
def SupertypeInferenceAnalyzer.typeTuples {Ty : Type} (elaboration : Elaboration Ty)
    (element : Element) : Option (List (typeTuple Ty)) :=
  match element with
  | .Expression (.ArrayExpression node) =>
    match elaboration.ArrayExpressionArgumentTypes node.ptr with
    | first :: second :: _ => some [{ first := first, second := second }]
    | _ => none
  | .Expression (.DictionaryExpression node) =>
    match elaboration.DictionaryExpressionEntryTypes node.ptr with
    | entry0 :: entry1 :: _ =>
      some [ { first := entry0.KeyType, second := entry1.KeyType }
           , { first := entry0.ValueType, second := entry1.ValueType } ]
    | _ => none
  | .Expression (.ConditionalExpression node) =>
    some [ { first := elaboration.ConditionalExpressionThenType node.ptr
             second := elaboration.ConditionalExpressionElseType node.ptr } ]
  | _ => none

/-- The loop `for _, typeTuple := range typeTuples` (source lines 391-406): the call
`typeTuple.first.Equal(typeTuple.second)` panics on a nil receiver; the first pair that is
not equal is reported and ends the callback. -/
def SupertypeInferenceAnalyzer.checkTuples {Ty : Type} (S : Sema Ty) (location : Location)
    (element : Element) : List (typeTuple Ty) → Outcome
  | [] => { reported := [], panic := none }
  | tuple :: rest =>
    match tuple.first with
    | none => { reported := [], panic := some .nilDereference }
    | some first =>
      if S.Equal first tuple.second then
        SupertypeInferenceAnalyzer.checkTuples S location element rest
      else
        { reported :=
            [{ Location := location
               Range := NewRangeFromPositioned element.node
               Message := "inferred type may differ" }]
          panic := none }

/-- The visit callback of `SupertypeInferenceAnalyzer` (source lines 340-408). -/
def SupertypeInferenceAnalyzer.visit {Ty : Type} (S : Sema Ty) (location : Location)
    (elaboration : Elaboration Ty) (element : Element) : Outcome :=
  match SupertypeInferenceAnalyzer.typeTuples elaboration element with
  | none => { reported := [], panic := none }
  | some typeTuples => SupertypeInferenceAnalyzer.checkTuples S location element typeTuples

/-! ## Specification vocabulary -/

/-- The diagnostic an iteration hands to `report`, if any. -/
def reportOf (r : Iteration) : Option Diagnostic :=
  match r with
  | .ok diagnostic => diagnostic
  | .error _ => none

/-- The point diagnostic placed right after a parameter: the value built at source lines
288-298 from the previous parameter. -/
def missingCommaDiagnostic (location : Location) (previousParameter : Parameter) : Diagnostic :=
  { Location := location
    Range :=
      { StartPos := previousParameter.EndPos.Shifted 1
        EndPos := previousParameter.EndPos.Shifted 1 }
    Message := "missing comma" }

/-- A comma at an offset strictly between the two offsets (the spec's description of the
inspected text). -/
def commaStrictlyBetween (code : List Nat) (previousEnd start : Int) : Prop :=
  ∃ o : Int, previousEnd < o ∧ o < start ∧ byteAt code o = some comma

/-- A comma at an offset `o` with `previousEnd <= o < start`. -/
def commaInGap (code : List Nat) (previousEnd start : Int) : Prop :=
  ∃ o : Int, previousEnd ≤ o ∧ o < start ∧ byteAt code o = some comma

/-- The gap between two consecutive parameters is a valid slice of the source text. -/
def gapInBounds (code : List Nat) (previous parameter : Parameter) : Prop :=
  0 ≤ previous.EndPos.Offset ∧ previous.EndPos.Offset ≤ parameter.StartPos.Offset ∧
    parameter.StartPos.Offset ≤ (code.length : Int)

/-- The inspected gap between two consecutive parameters exists and holds no comma. -/
def gapWithoutComma (code : List Nat) (previous parameter : Parameter) : Prop :=
  ∃ gap, sliceString code previous.EndPos.Offset parameter.StartPos.Offset = some gap ∧
    comma ∉ gap

/-- The inspected gap between two consecutive parameters exists and holds a comma. -/
def gapWithComma (code : List Nat) (previous parameter : Parameter) : Prop :=
  ∃ gap, sliceString code previous.EndPos.Offset parameter.StartPos.Offset = some gap ∧
    comma ∈ gap

/-- The loop of the missing-commas analyzer as a walk along the parameter list that carries
the previous parameter; `missingCommas_forRange_eq_walk` shows it is the loop. -/
def ParameterListMissingCommasAnalyzer.walk (location : Location) (code : List Nat) :
    Parameter → List Parameter → List Diagnostic → Outcome
  | _, [], reported => { reported := reported, panic := none }
  | previous, parameter :: rest, reported =>
    match sliceString code previous.EndPos.Offset parameter.StartPos.Offset with
    | none => { reported := reported, panic := some .sliceBoundsOutOfRange }
    | some gap =>
      if ContainsRune gap comma then
        ParameterListMissingCommasAnalyzer.walk location code parameter rest reported
      else
        ParameterListMissingCommasAnalyzer.walk location code parameter rest
          (reported ++ [missingCommaDiagnostic location previous])

/-! ## Sample inputs -/

/-- A small universe of types on which the analyzers can be evaluated. -/
inductive SampleType where
  | Int
  | String
  | Number
  | SignedNumber
  | Integer
  | SignedInteger
  | FixedPoint
  | SignedFixedPoint
  | AuthAccount
  | Optional (type : SampleType)
  | VariableSized (element : SampleType)
deriving DecidableEq, Repr

/-- The operations of `sema` on the sample universe: equality is structural, only arrays have
an element type, and the field names are those of the account type. -/
def sampleSema : Sema SampleType :=
  { Equal := fun t other => decide (other = some t)
    ElementType := fun t _ =>
      match t with
      | .VariableSized element => some element
      | _ => none
    IsOptionalType := fun t =>
      match t with
      | .Optional _ => true
      | _ => false
    NumberType := .Number
    SignedNumberType := .SignedNumber
    IntegerType := .Integer
    SignedIntegerType := .SignedInteger
    FixedPointType := .FixedPoint
    SignedFixedPointType := .SignedFixedPoint
    AuthAccountType := .AuthAccount
    AuthAccountAddPublicKeyField := "addPublicKey"
    AuthAccountRemovePublicKeyField := "removePublicKey" }

/-- A position on the first line whose column equals its offset. -/
def at1 (offset : Int) : Position :=
  { Offset := offset, Line := 1, Column := offset }

/-- A node at address `ptr` spanning the given offsets of the first line. -/
def nodeAt (ptr : Nat) (first last : Int) : Node :=
  { ptr := ptr, StartPos := at1 first, EndPos := at1 last }

/-- A parameter spanning the given offsets of the first line. -/
def parameterAt (first last : Int) : Parameter :=
  { StartPos := at1 first, EndPos := at1 last }

/-- The per-parameter rule with the spec's reading of the inspected text, at index `i`: a
diagnostic is reported for parameter `i` exactly when no comma lies strictly between the end
offset of parameter `i - 1` and the start offset of parameter `i`. -/
def strictlyBetweenClaim (location : Location) (code : List Nat) (parameters : List Parameter)
    (i : Nat) : Prop :=
  ∀ previous parameter, parameters[i - 1]? = some previous → parameters[i]? = some parameter →
    ((∃ d, reportOf (ParameterListMissingCommasAnalyzer.iteration location code parameters i)
        = some d) ↔
      ¬ commaStrictlyBetween code previous.EndPos.Offset parameter.StartPos.Offset)

/-- Two parameters separated by whitespace only: `a: Int` at offsets 6-11 and `b: Int` at
offsets 13-18. -/
def codeWithoutComma : List Nat := bytes "fun f(a: Int b: Int) \x7b\x7d"

/-- Two parameters separated by a comma: `a: Int` at offsets 6-11 and `b: Int` at
offsets 14-19. -/
def codeWithComma : List Nat := bytes "fun f(a: Int, b: Int) \x7b\x7d"

/-- Two parameters separated by a comment that holds a comma: `a: Int` at offsets 6-11 and
`b: Int` at offsets 19-24. -/
def codeWithCommentedComma : List Nat := bytes "fun f(a: Int /*,*/ b: Int) \x7b\x7d"

/-- Two parameters separated by a longer comment that holds a comma: `a: Int` at offsets
6-11 and `b: Int` at offsets 24-29. -/
def codeWithLongComment : List Nat := bytes "fun f(a: Int /* a, b */ b: Int) \x7b\x7d"

/-- The diagnostic of the supertype inference analyzer for an element (source lines
397-401). -/
def inferredTypeDiagnostic (location : Location) (element : Element) : Diagnostic :=
  { Location := location
    Range := NewRangeFromPositioned element.node
    Message := "inferred type may differ" }

/-- The two types of a pair are not Equal: the receiver is present and the call
`first.Equal(second)` returns false. -/
def typeTuple.notEqual {Ty : Type} (S : Sema Ty) (tuple : typeTuple Ty) : Prop :=
  ∃ first, tuple.first = some first ∧ S.Equal first tuple.second = false

/-- The type pairs of a node: those the type switch builds, none when it returns early. -/
def SupertypeInferenceAnalyzer.pairs {Ty : Type} (elaboration : Elaboration Ty)
    (element : Element) : List (typeTuple Ty) :=
  (SupertypeInferenceAnalyzer.typeTuples elaboration element).getD []

/-- The diagnostic of the reference to optional analyzer for an index expression (source
lines 70-74). -/
def referenceToOptionalDiagnostic (location : Location) (indexExpression : Node) : Diagnostic :=
  { Location := location
    Range := NewRangeFromPositioned indexExpression
    Message := "reference to optional" }

/-- The diagnostic of the number supertype analyzer for a binary expression (source lines
217-221). -/
def numberSupertypeDiagnostic (location : Location) (binaryExpression : Node) : Diagnostic :=
  { Location := location
    Range := NewRangeFromPositioned binaryExpression
    Message := "arithmetic operation on number supertype" }

/-- The non-authorized element type of an indexed type is an optional type: the call
`indexedType.ElementType(false)` returns a type whose dynamic type is `*sema.OptionalType`. -/
def elementTypeIsOptional {Ty : Type} (S : Sema Ty) (indexedType : Ty) : Prop :=
  ∃ resultType, S.ElementType indexedType false = some resultType ∧
    S.IsOptionalType resultType = true

/-- A type is one of the six number supertype markers. -/
def isNumberSupertype {Ty : Type} (S : Sema Ty) (type : Ty) : Prop :=
  type = S.NumberType ∨ type = S.SignedNumberType ∨ type = S.IntegerType ∨
    type = S.SignedIntegerType ∨ type = S.FixedPointType ∨ type = S.SignedFixedPointType

/-- The sample elaboration: node 1 is a conditional with branches `Int` and `String`;
node 2 an array of `Int`, `String`, `Int`; node 3 a dictionary whose first two entries have
the keys `Int` and `String` and equal values; node 4 a dictionary with equal keys and the
values `Int` and `String`; node 5 an index expression into an array of optional integers;
node 6 a binary expression with left type `Integer`. -/
def sampleElaboration : Elaboration SampleType :=
  { IndexExpressionIndexedTypes := fun ptr =>
      if ptr = 5 then some (.VariableSized (.Optional .Int)) else none
    MemberExpressionMemberInfos := fun _ => { Member := none }
    BinaryExpressionLeftTypes := fun ptr => if ptr = 6 then some .Integer else none
    ArrayExpressionArgumentTypes := fun ptr =>
      if ptr = 2 then [some .Int, some .String, some .Int] else []
    DictionaryExpressionEntryTypes := fun ptr =>
      if ptr = 3 then
        [ { KeyType := some .Int, ValueType := some .Int }
        , { KeyType := some .String, ValueType := some .Int } ]
      else if ptr = 4 then
        [ { KeyType := some .String, ValueType := some .Int }
        , { KeyType := some .String, ValueType := some .String } ]
      else []
    ConditionalExpressionThenType := fun ptr => if ptr = 1 then some .Int else none
    ConditionalExpressionElseType := fun ptr => if ptr = 1 then some .String else none }

/-- The message of the deprecated key functions analyzer for a replacement of `old` by
`new`. -/
def deprecatedKeyMessage (old new : String) : String :=
  "use of deprecated key management API: replace \x27" ++ old ++ "\x27 with \x27" ++ new
    ++ "\x27"

/-- The elaborated member of an invoked expression is a deprecated key function of the
account type: the invoked expression is a member expression, its member is present, the
container type is the account type and the identifier is one of the two field names. -/
def isDeprecatedKeyFunction {Ty : Type} (S : Sema Ty) (elaboration : Elaboration Ty)
    (invokedExpression : Expression) : Prop :=
  ∃ (memberExpression : Node) (member : Member Ty),
    invokedExpression = .MemberExpression memberExpression ∧
    (elaboration.MemberExpressionMemberInfos memberExpression.ptr).Member = some member ∧
    member.ContainerType = some S.AuthAccountType ∧
    (member.Identifier = S.AuthAccountAddPublicKeyField ∨
      member.Identifier = S.AuthAccountRemovePublicKeyField)


/-- The elaboration precondition at one visited element: the elaboration holds a non-nil
entry for every lookup the analyzers make there. The indexed type of an index expression
under a reference, the then- and else-types of a conditional, and the element, key and value
types in the entries of an array or dictionary are all present. -/
def elaborationComplete {Ty : Type} (elaboration : Elaboration Ty) (element : Element) : Prop :=
  match element with
  | .Expression (.ReferenceExpression _ (.IndexExpression indexExpression)) =>
    elaboration.IndexExpressionIndexedTypes indexExpression.ptr ≠ none
  | .Expression (.ConditionalExpression node) =>
    elaboration.ConditionalExpressionThenType node.ptr ≠ none ∧
      elaboration.ConditionalExpressionElseType node.ptr ≠ none
  | .Expression (.ArrayExpression node) =>
    ∀ type ∈ elaboration.ArrayExpressionArgumentTypes node.ptr, type ≠ none
  | .Expression (.DictionaryExpression node) =>
    ∀ entry ∈ elaboration.DictionaryExpressionEntryTypes node.ptr,
      entry.KeyType ≠ none ∧ entry.ValueType ≠ none
  | _ => True

/-- The ordering of two consecutive parameters: the end offset of the previous parameter is
at most the start offset of the next one, which is at most the length of the source text. -/
def gapOrdered (code : List Nat) (previous parameter : Parameter) : Prop :=
  previous.EndPos.Offset ≤ parameter.StartPos.Offset ∧
    parameter.StartPos.Offset ≤ (code.length : Int)

/-- The sample elaboration of member expressions: node 11 is the member `addPublicKey` of the
account type, node 12 the member `removePublicKey` of the account type, node 13 the member
`addPublicKey` of another type. -/
def sampleKeyElaboration : Elaboration SampleType :=
  { IndexExpressionIndexedTypes := fun _ => none
    MemberExpressionMemberInfos := fun ptr =>
      if ptr = 11 then
        { Member := some { ContainerType := some .AuthAccount, Identifier := "addPublicKey" } }
      else if ptr = 12 then
        { Member := some { ContainerType := some .AuthAccount, Identifier := "removePublicKey" } }
      else if ptr = 13 then
        { Member := some { ContainerType := some .String, Identifier := "addPublicKey" } }
      else { Member := none }
    BinaryExpressionLeftTypes := fun _ => none
    ArrayExpressionArgumentTypes := fun _ => []
    DictionaryExpressionEntryTypes := fun _ => []
    ConditionalExpressionThenType := fun _ => none
    ConditionalExpressionElseType := fun _ => none }

/-! ## The registry of analyzers -/

/-- The identity of an analyzer value: the five analyzers this file defines, each allocated
by its own `&analysis.Analyzer` literal, and any analyzer defined elsewhere. -/
inductive Analyzer where
  | ReferenceToOptionalAnalyzer
  | DeprecatedKeyFunctionsAnalyzer
  | NumberSupertypeBinaryOperationsAnalyzer
  | ParameterListMissingCommasAnalyzer
  | SupertypeInferenceAnalyzer
  | Other (id : Nat)
deriving DecidableEq, Repr

/-- The configuration error of the registry. -/
inductive ConfigurationError where
  | duplicateName (name : String)
deriving DecidableEq, Repr

/-- Modelled from the spec: `registerAnalyzer` is declared in another file of package
`analyzers`. By the spec, `register(name, analyzer)` adds an analyzer to the process-wide
registry and fails with a configuration error if `name` already exists. The registry is the
list of its bindings. -/
def registerAnalyzer (registry : List (String × Analyzer)) (name : String)
    (analyzer : Analyzer) : Except ConfigurationError (List (String × Analyzer)) :=
  if registry.any (fun binding => binding.1 == name) then
    .error (.duplicateName name)
  else
    .ok (registry ++ [(name, analyzer)])

/-- The calls of `registerAnalyzer` made by the five `init` functions, in source order
(source lines 84-90, 167-172, 231-236, 310-315, 416-421). -/
def registrations : List (String × Analyzer) :=
  [ ("reference-to-optional", .ReferenceToOptionalAnalyzer)
  , ("deprecated-key-functions", .DeprecatedKeyFunctionsAnalyzer)
  , ("number-supertype-binary-operations", .NumberSupertypeBinaryOperationsAnalyzer)
  , ("parameter-list-missing-commas", .ParameterListMissingCommasAnalyzer)
  , ("supertype-inference", .SupertypeInferenceAnalyzer) ]

/-- Running registrations one after the other; the first failure ends the run. -/
def register : List (String × Analyzer) → List (String × Analyzer) →
    Except ConfigurationError (List (String × Analyzer))
  | registry, [] => .ok registry
  | registry, (name, analyzer) :: rest =>
    match registerAnalyzer registry name analyzer with
    | .error e => .error e
    | .ok registry => register registry rest

/-- The five `init` functions of the file, run on a registry. -/
def init (registry : List (String × Analyzer)) :
    Except ConfigurationError (List (String × Analyzer)) :=
  register registry registrations

/-! ## Package `lexer`: the names of the token types (`tokentype_string.go`) -/

/-- The token type constants and their values, as the compile-time check `_` lists them
(source lines 7-37): `x[TokenError-0]` compiles only if `TokenError` is 0, and so on. -/
def tokenTypeConstants : List (String × Nat) :=
  [ ("TokenError", 0)
  , ("TokenEOF", 1)
  , ("TokenSpace", 2)
  , ("TokenNumber", 3)
  , ("TokenIdentifier", 4)
  , ("TokenString", 5)
  , ("TokenPlus", 6)
  , ("TokenMinus", 7)
  , ("TokenStar", 8)
  , ("TokenSlash", 9)
  , ("TokenNilCoalesce", 10)
  , ("TokenParenOpen", 11)
  , ("TokenParenClose", 12)
  , ("TokenBraceOpen", 13)
  , ("TokenBraceClose", 14)
  , ("TokenBracketOpen", 15)
  , ("TokenBracketClose", 16)
  , ("TokenQuestionMark", 17)
  , ("TokenComma", 18)
  , ("TokenColon", 19)
  , ("TokenLeftArrow", 20)
  , ("TokenLess", 21)
  , ("TokenGreater", 22)
  , ("TokenBlockCommentStart", 23)
  , ("TokenBlockCommentContent", 24)
  , ("TokenBlockCommentEnd", 25) ]

/-- The constant `_TokenType_name` (source line 39). -/
def _TokenType_name : List Nat :=
  bytes ("ErrorEOFSpaceNumberIdentifierStringPlusMinusStarSlashNilCoalesceParenOpenParenClose"
    ++ "BraceOpenBraceCloseBracketOpenBracketCloseQuestionMarkCommaColonLeftArrowLessGreater"
    ++ "BlockCommentStartBlockCommentContentBlockCommentEnd")

/-- The array `_TokenType_index` (source line 41); its elements are of type `uint8`. -/
def _TokenType_index : List Nat :=
  [0, 5, 8, 13, 19, 29, 35, 39, 44, 48, 53, 64, 73, 83, 92, 102, 113, 125, 137, 142, 147, 156,
    160, 167, 184, 203, 218]

/-- The conversion `int64(i)` of an unsigned integer value of at most 64 bits: values from
`2^63` on wrap around to the negative numbers. -/
def toInt64 (i : Nat) : Int :=
  (((i + 2 ^ 63) % 2 ^ 64 : Nat) : Int) - 2 ^ 63

/-- The decimal digits of `n`, most significant first, in front of `digits`; `fuel` bounds the
number of digits produced. -/
def formatDecimalCore : Nat → Nat → List Nat → List Nat
  | 0, _, digits => digits
  | fuel + 1, n, digits =>
    let digits := (48 + n % 10) :: digits
    if n / 10 = 0 then digits else formatDecimalCore fuel (n / 10) digits

/-- The decimal representation of a natural number, as ASCII bytes. -/
def formatDecimal (n : Nat) : List Nat :=
  formatDecimalCore (n + 1) n []

/-- The call `strconv.FormatInt(i, 10)`: the decimal digits, after a minus sign for a
negative number. -/
def FormatInt (i : Int) : List Nat :=
  if i < 0 then 45 :: formatDecimal (-i).toNat else formatDecimal i.toNat

/-- The method `TokenType.String` (source lines 43-48) on a token type value `i`, an unsigned
integer. Indexing the array or slicing the string out of range panics. -/
def TokenType.String (i : Nat) : Except Panic (List Nat) :=
  if i ≥ _TokenType_index.length - 1 then
    .ok (bytes "TokenType(" ++ FormatInt (toInt64 i) ++ bytes ")")
  else
    match _TokenType_index[i]?, _TokenType_index[i + 1]? with
    | some low, some high =>
      match sliceString _TokenType_name (low : Int) (high : Int) with
      | some name => .ok name
      | none => .error .sliceBoundsOutOfRange
    | _, _ => .error .indexOutOfRange

/-- The value a decimal representation stands for. -/
def parseDecimal (digits : List Nat) : Nat :=
  digits.foldl (fun value digit => 10 * value + (digit - 48)) 0

/-- The integer a representation produced by `FormatInt` stands for. -/
def parseInt (representation : List Nat) : Int :=
  match representation with
  | 45 :: digits => - (parseDecimal digits : Int)
  | digits => (parseDecimal digits : Int)

/-! ## Lemmas on slices and loops -/

theorem mem_sliceString_iff {code : List Nat} {low high : Int} {gap : List Nat} {b : Nat}
    (h : sliceString code low high = some gap) :
    b ∈ gap ↔ ∃ o : Int, low ≤ o ∧ o < high ∧ byteAt code o = some b := by
  unfold sliceString at h
  split at h
  · rename_i hb
    obtain ⟨h0, h1, h2⟩ := hb
    simp only [Option.some.injEq] at h
    subst h
    rw [List.mem_iff_getElem?]
    constructor
    · rintro ⟨j, hj⟩
      rw [List.getElem?_take] at hj
      split at hj
      · rename_i hlt
        rw [List.getElem?_drop] at hj
        refine ⟨((low.toNat + j : Nat) : Int), by omega, by omega, ?_⟩
        unfold byteAt
        rw [if_pos (by omega)]
        have hnat : ((low.toNat + j : Nat) : Int).toNat = low.toNat + j := by omega
        rw [hnat]
        exact hj
      · simp at hj
    · rintro ⟨o, ho1, ho2, ho3⟩
      unfold byteAt at ho3
      rw [if_pos (by omega)] at ho3
      refine ⟨o.toNat - low.toNat, ?_⟩
      rw [List.getElem?_take_of_lt (by omega), List.getElem?_drop]
      have : low.toNat + (o.toNat - low.toNat) = o.toNat := by omega
      rw [this]
      exact ho3
  · simp at h

theorem forRange_mem (body : Nat → Iteration) (indices : List Nat) (reported : List Diagnostic)
    (d : Diagnostic) (h : d ∈ (forRange body indices reported).reported) :
    d ∈ reported ∨ ∃ i ∈ indices, body i = .ok (some d) := by
  induction indices generalizing reported with
  | nil => left; simpa [forRange] using h
  | cons i rest ih =>
    unfold forRange at h
    split at h
    · left; simpa using h
    · rcases ih _ h with h1 | ⟨j, hj, hb⟩
      · exact Or.inl h1
      · exact Or.inr ⟨j, List.mem_cons_of_mem _ hj, hb⟩
    · rename_i diagnostic hbody
      rcases ih _ h with h1 | ⟨j, hj, hb⟩
      · rw [List.mem_append, List.mem_singleton] at h1
        rcases h1 with h1 | h1
        · exact Or.inl h1
        · subst h1
          exact Or.inr ⟨i, List.mem_cons_self _ _, hbody⟩
      · exact Or.inr ⟨j, List.mem_cons_of_mem _ hj, hb⟩

theorem forRange_of_ok (body : Nat → Iteration) (indices : List Nat)
    (reported : List Diagnostic) (h : ∀ i ∈ indices, ∃ r, body i = .ok r) :
    forRange body indices reported =
      { reported := reported ++ indices.filterMap (fun i => reportOf (body i))
        panic := none } := by
  induction indices generalizing reported with
  | nil => simp [forRange]
  | cons i rest ih =>
    obtain ⟨r, hr⟩ := h i (List.mem_cons_self _ _)
    have hrest : ∀ j ∈ rest, ∃ r, body j = .ok r :=
      fun j hj => h j (List.mem_cons_of_mem _ hj)
    unfold forRange
    rw [hr]
    cases r with
    | none => simp [ih _ hrest, reportOf, hr]
    | some d => simp [ih _ hrest, reportOf, hr]

/-! ## Parameter list missing commas: lemmas and theorems -/

section MissingCommas
open ParameterListMissingCommasAnalyzer

theorem iteration_eq {location : Location} {code : List Nat} {parameters : List Parameter}
    {i : Nat} {previous parameter : Parameter} (hi : 1 ≤ i)
    (hprevious : parameters[i - 1]? = some previous) (hparameter : parameters[i]? = some parameter) :
    iteration location code parameters i =
      match sliceString code previous.EndPos.Offset parameter.StartPos.Offset with
      | none => .error .sliceBoundsOutOfRange
      | some gap =>
        if ContainsRune gap comma then .ok none
        else .ok (some (missingCommaDiagnostic location previous)) := by
  unfold iteration
  rw [if_neg (by omega)]
  simp only [hprevious, hparameter]
  rfl

theorem containsRune_iff {gap : List Nat} {r : Nat} : ContainsRune gap r = true ↔ r ∈ gap := by
  unfold ContainsRune
  simp

theorem missingCommas_forRange_eq_walk (location : Location) (code : List Nat)
    (rest : List Parameter) :
    ∀ (pre : List Parameter) (previous : Parameter) (reported : List Diagnostic),
      forRange (iteration location code (pre ++ previous :: rest))
          (List.range' (pre.length + 1) rest.length) reported
        = walk location code previous rest reported := by
  induction rest with
  | nil => intro pre previous reported; simp [forRange, walk]
  | cons parameter rest ih =>
    intro pre previous reported
    have hprevious : (pre ++ previous :: parameter :: rest)[pre.length + 1 - 1]? = some previous := by
      rw [Nat.add_sub_cancel, List.getElem?_append_right (Nat.le_refl _)]
      simp
    have hparameter : (pre ++ previous :: parameter :: rest)[pre.length + 1]? = some parameter := by
      rw [List.getElem?_append_right (by omega)]
      simp
    have hstep := ih (pre ++ [previous]) parameter
    simp only [List.append_assoc, List.singleton_append, List.length_append,
      List.length_singleton] at hstep
    rw [List.length_cons, List.range'_succ]
    unfold forRange walk
    rw [iteration_eq (by omega) hprevious hparameter]
    cases hslice : sliceString code previous.EndPos.Offset parameter.StartPos.Offset with
    | none => simp
    | some gap =>
      by_cases hcomma : ContainsRune gap comma = true
      · dsimp only
        rw [if_pos hcomma, if_pos hcomma]
        exact hstep reported
      · dsimp only
        rw [if_neg hcomma, if_neg hcomma]
        exact hstep _

theorem visitParameterList_eq_walk (location : Location) (code : List Nat)
    (first : Parameter) (rest : List Parameter) :
    visitParameterList location code (some { Parameters := first :: rest })
      = walk location code first rest [] := by
  unfold visitParameterList
  simp only [List.length_cons]
  rw [List.range_eq_range', List.range'_succ]
  unfold forRange
  have h0 : iteration location code (first :: rest) 0 = .ok none := by simp [iteration]
  rw [h0]
  simpa using missingCommas_forRange_eq_walk location code rest [] first []

theorem visitParameterList_nil (location : Location) (code : List Nat) :
    visitParameterList location code (some { Parameters := [] })
      = { reported := [], panic := none } := by
  simp [visitParameterList, forRange]

theorem chain_of_consecutive {R : Parameter → Parameter → Prop} {parameters : List Parameter}
    (h : ∀ i previous parameter, 1 ≤ i → parameters[i - 1]? = some previous →
      parameters[i]? = some parameter → R previous parameter) :
    List.Chain' R parameters := by
  rw [List.chain'_iff_get]
  intro i hi
  apply h (i + 1) _ _ (by omega)
  · simp only [Nat.add_sub_cancel, List.get_eq_getElem]
    exact List.getElem?_eq_getElem _
  · simp only [List.get_eq_getElem]
    exact List.getElem?_eq_getElem _

theorem walk_without_commas (location : Location) (code : List Nat) (rest : List Parameter) :
    ∀ (previous : Parameter) (reported : List Diagnostic),
      List.Chain' (gapWithoutComma code) (previous :: rest) →
      walk location code previous rest reported =
        { reported :=
            reported ++ (previous :: rest).dropLast.map (missingCommaDiagnostic location)
          panic := none } := by
  induction rest with
  | nil => intro previous reported _; simp [walk]
  | cons parameter rest ih =>
    intro previous reported hchain
    rw [List.chain'_cons] at hchain
    obtain ⟨⟨gap, hslice, hcomma⟩, hrest⟩ := hchain
    unfold walk
    rw [hslice]
    have hno : ¬ ContainsRune gap comma = true := by rwa [containsRune_iff]
    dsimp only
    rw [if_neg hno, ih parameter _ hrest, List.dropLast_cons₂, List.map_cons, List.append_assoc]
    rfl

theorem walk_with_commas (location : Location) (code : List Nat) (rest : List Parameter) :
    ∀ (previous : Parameter) (reported : List Diagnostic),
      List.Chain' (gapWithComma code) (previous :: rest) →
      walk location code previous rest reported = { reported := reported, panic := none } := by
  induction rest with
  | nil => intro previous reported _; simp [walk]
  | cons parameter rest ih =>
    intro previous reported hchain
    rw [List.chain'_cons] at hchain
    obtain ⟨⟨gap, hslice, hcomma⟩, hrest⟩ := hchain
    unfold walk
    rw [hslice]
    have hyes : ContainsRune gap comma = true := by rwa [containsRune_iff]
    dsimp only
    rw [if_pos hyes]
    exact ih parameter _ hrest


theorem sliceString_of_inBounds {code : List Nat} {previous parameter : Parameter}
    (h : gapInBounds code previous parameter) :
    ∃ gap, sliceString code previous.EndPos.Offset parameter.StartPos.Offset = some gap := by
  unfold gapInBounds at h
  unfold sliceString
  rw [if_pos h]
  exact ⟨_, rfl⟩

theorem iteration_ok_of_inBounds (location : Location) (code : List Nat)
    (parameters : List Parameter)
    (hwf : ∀ i previous parameter, 1 ≤ i → parameters[i - 1]? = some previous →
      parameters[i]? = some parameter → gapInBounds code previous parameter) :
    ∀ i ∈ List.range parameters.length,
      ∃ r, iteration location code parameters i = .ok r := by
  intro i hi
  rw [List.mem_range] at hi
  by_cases h0 : i = 0
  · exact ⟨none, by simp [iteration, h0]⟩
  · have hprevious : parameters[i - 1]? = some (parameters[i - 1]) :=
      List.getElem?_eq_getElem (by omega)
    have hparameter : parameters[i]? = some (parameters[i]) := List.getElem?_eq_getElem hi
    have hb := hwf i _ _ (by omega) hprevious hparameter
    rw [iteration_eq (by omega) hprevious hparameter]
    obtain ⟨gap, hgap⟩ := sliceString_of_inBounds hb
    rw [hgap]
    dsimp only
    split
    · exact ⟨_, rfl⟩
    · exact ⟨_, rfl⟩

theorem visit_functionLike (location : Location) (code : List Nat) (element : Element)
    (parameters : List Parameter)
    (helement : ∃ node, element = .FunctionDeclaration node (some { Parameters := parameters }) ∨
      element = .Expression (.FunctionExpression node (some { Parameters := parameters }))) :
    visit location code element
      = visitParameterList location code (some { Parameters := parameters }) := by
  obtain ⟨node, h | h⟩ := helement <;> subst h <;> rfl

theorem consecutive_pair {R : Parameter → Parameter → Prop} {a b : Parameter} (h : R a b) :
    ∀ i previous parameter, 1 ≤ i → [a, b][i - 1]? = some previous →
      [a, b][i]? = some parameter → R previous parameter := by
  intro i previous parameter hi hprevious hparameter
  match i, hi, hprevious, hparameter with
  | 1, _, hprevious, hparameter =>
    simp only [Nat.sub_self, List.getElem?_cons_zero, Option.some.injEq] at hprevious
    simp only [List.getElem?_cons_succ, List.getElem?_cons_zero, Option.some.injEq] at hparameter
    subst hprevious hparameter
    exact h
  | i + 2, _, _, hparameter =>
    simp at hparameter

theorem iteration_reported {location : Location} {code : List Nat}
    {parameters : List Parameter} {i : Nat} {d : Diagnostic}
    (h : iteration location code parameters i = .ok (some d)) :
    1 ≤ i ∧ i < parameters.length ∧ ∃ previous parameter,
      parameters[i - 1]? = some previous ∧ parameters[i]? = some parameter ∧
      (∃ gap, sliceString code previous.EndPos.Offset parameter.StartPos.Offset = some gap ∧
        comma ∉ gap) ∧
      d = missingCommaDiagnostic location previous := by
  by_cases h0 : i = 0
  · subst h0
    simp [iteration] at h
  · by_cases hlt : i < parameters.length
    · have hprevious : parameters[i - 1]? = some (parameters[i - 1]) :=
        List.getElem?_eq_getElem (by omega)
      have hparameter : parameters[i]? = some (parameters[i]) := List.getElem?_eq_getElem hlt
      refine ⟨by omega, hlt, _, _, hprevious, hparameter, ?_⟩
      rw [iteration_eq (by omega) hprevious hparameter] at h
      cases hslice : sliceString code (parameters[i - 1]).EndPos.Offset
          (parameters[i]).StartPos.Offset with
      | none =>
        rw [hslice] at h
        simp at h
      | some gap =>
        rw [hslice] at h
        dsimp only at h
        by_cases hcomma : ContainsRune gap comma = true
        · rw [if_pos hcomma] at h
          simp at h
        · rw [if_neg hcomma] at h
          rw [containsRune_iff] at hcomma
          refine ⟨⟨gap, rfl, hcomma⟩, ?_⟩
          simp only [Except.ok.injEq, Option.some.injEq] at h
          exact h.symm
    · have hnone : parameters[i]? = none := List.getElem?_eq_none (by omega)
      unfold iteration at h
      rw [if_neg h0, hnone] at h
      simp at h

theorem visitParameterList_short (location : Location) (code : List Nat)
    (parameters : List Parameter) (h : parameters.length ≤ 1) :
    visitParameterList location code (some { Parameters := parameters })
      = { reported := [], panic := none } := by
  match parameters, h with
  | [], _ => exact visitParameterList_nil location code
  | [first], _ =>
    rw [visitParameterList_eq_walk]
    rfl
  | _ :: _ :: _, h => simp at h

/-- The visit under in-bounds gaps, in terms of the inspected slice: the visit does not
panic, it reports what the iterations of its loop report, in index order, and the iteration
for a parameter at index `i >= 1` reports the diagnostic of that parameter if and only if no
comma occurs at any offset `o` with `previousEnd <= o < start`. -/
theorem visit_report_iff_no_comma_in_slice (location : Location) (code : List Nat)
    (parameters : List Parameter) (element : Element)
    (helement : ∃ node, element = .FunctionDeclaration node (some { Parameters := parameters }) ∨
      element = .Expression (.FunctionExpression node (some { Parameters := parameters })))
    (hwf : ∀ i previous parameter, 1 ≤ i → parameters[i - 1]? = some previous →
      parameters[i]? = some parameter → gapInBounds code previous parameter) :
    visit location code element =
        { reported := (List.range parameters.length).filterMap
            (fun i => reportOf (iteration location code parameters i))
          panic := none } ∧
      ∀ i previous parameter, 1 ≤ i → parameters[i - 1]? = some previous →
        parameters[i]? = some parameter →
        (reportOf (iteration location code parameters i)
            = some (missingCommaDiagnostic location previous) ↔
          ¬ commaInGap code previous.EndPos.Offset parameter.StartPos.Offset) ∧
        (reportOf (iteration location code parameters i) = none ↔
          commaInGap code previous.EndPos.Offset parameter.StartPos.Offset) := by
  constructor
  · rw [visit_functionLike location code element parameters helement]
    unfold visitParameterList
    dsimp only
    rw [forRange_of_ok _ _ _ (iteration_ok_of_inBounds location code parameters hwf)]
    simp
  · intro i previous parameter hi hprevious hparameter
    have hb := hwf i previous parameter hi hprevious hparameter
    rw [iteration_eq hi hprevious hparameter]
    obtain ⟨gap, hgap⟩ := sliceString_of_inBounds hb
    have hmem := mem_sliceString_iff (b := comma) hgap
    rw [hgap]
    dsimp only
    unfold commaInGap
    rw [← hmem, ← containsRune_iff]
    by_cases hcomma : ContainsRune gap comma = true
    · rw [if_pos hcomma]
      simp [reportOf, hcomma]
    · rw [if_neg hcomma]
      simp [reportOf, hcomma]

theorem commaInGap_iff_strictlyBetween {code : List Nat} {previousEnd start : Int}
    (hlast : byteAt code previousEnd ≠ some comma) :
    commaInGap code previousEnd start ↔ commaStrictlyBetween code previousEnd start := by
  unfold commaInGap commaStrictlyBetween
  constructor
  · rintro ⟨o, hlow, hhigh, hbyte⟩
    have hne : o ≠ previousEnd := by
      intro heq
      rw [heq] at hbyte
      exact hlast hbyte
    exact ⟨o, by omega, hhigh, hbyte⟩
  · rintro ⟨o, hlow, hhigh, hbyte⟩
    exact ⟨o, by omega, hhigh, hbyte⟩

/-- C1: for every source text and every function declaration or function expression whose
consecutive parameters lie in the text in order (`0 <= previousEnd <= start <= len(code)`)
and whose parameters but the last do not end on a comma, as in the tree of a parsed program,
the visit does not panic, it reports what the iterations of its loop report, in index order,
and for every parameter at index `i >= 1` the iteration reports the "missing comma"
diagnostic of that parameter if and only if no comma occurs at any offset `o` with
`previousEnd < o < start`; otherwise it reports nothing. -/
theorem missingCommas_report_iff_no_comma_between (location : Location) (code : List Nat)
    (parameters : List Parameter) (element : Element)
    (helement : ∃ node, element = .FunctionDeclaration node (some { Parameters := parameters }) ∨
      element = .Expression (.FunctionExpression node (some { Parameters := parameters })))
    (hparsed : ∀ i previous parameter, 1 ≤ i → parameters[i - 1]? = some previous →
      parameters[i]? = some parameter →
      gapInBounds code previous parameter ∧
        byteAt code previous.EndPos.Offset ≠ some comma) :
    visit location code element =
        { reported := (List.range parameters.length).filterMap
            (fun i => reportOf (iteration location code parameters i))
          panic := none } ∧
      (∀ i previous parameter, 1 ≤ i → parameters[i - 1]? = some previous →
        parameters[i]? = some parameter →
        (reportOf (iteration location code parameters i)
            = some (missingCommaDiagnostic location previous) ↔
          ¬ commaStrictlyBetween code previous.EndPos.Offset parameter.StartPos.Offset) ∧
        (reportOf (iteration location code parameters i) = none ↔
          commaStrictlyBetween code previous.EndPos.Offset parameter.StartPos.Offset)) ∧
      (∀ i, 1 ≤ i → strictlyBetweenClaim location code parameters i) := by
  have hwf : ∀ i previous parameter, 1 ≤ i → parameters[i - 1]? = some previous →
      parameters[i]? = some parameter → gapInBounds code previous parameter :=
    fun i previous parameter hi hprevious hparameter =>
      (hparsed i previous parameter hi hprevious hparameter).1
  obtain ⟨hvisit, hiteration⟩ :=
    visit_report_iff_no_comma_in_slice location code parameters element helement hwf
  have hstrict : ∀ i previous parameter, 1 ≤ i → parameters[i - 1]? = some previous →
      parameters[i]? = some parameter →
      (reportOf (iteration location code parameters i)
          = some (missingCommaDiagnostic location previous) ↔
        ¬ commaStrictlyBetween code previous.EndPos.Offset parameter.StartPos.Offset) ∧
      (reportOf (iteration location code parameters i) = none ↔
        commaStrictlyBetween code previous.EndPos.Offset parameter.StartPos.Offset) := by
    intro i previous parameter hi hprevious hparameter
    have hlast := (hparsed i previous parameter hi hprevious hparameter).2
    rw [← commaInGap_iff_strictlyBetween hlast]
    exact hiteration i previous parameter hi hprevious hparameter
  refine ⟨hvisit, hstrict, ?_⟩
  intro i hi previous parameter hprevious hparameter
  obtain ⟨hsome, hnone⟩ := hstrict i previous parameter hi hprevious hparameter
  constructor
  · rintro ⟨d, hd⟩ hcomma
    rw [hnone.mpr hcomma] at hd
    cases hd
  · intro hno
    exact ⟨_, hsome.mpr hno⟩

/-- Witness for C1: in `a: Int b: Int` the gap is in bounds, the first parameter ends on `t`,
no comma lies strictly between the offsets 11 and 13, and the visit reports the diagnostic of
the first parameter. -/
theorem missingCommas_report_iff_no_comma_between_witness :
    (gapInBounds codeWithoutComma (parameterAt 6 11) (parameterAt 13 18) ∧
      byteAt codeWithoutComma 11 ≠ some comma) ∧
    visit "test" codeWithoutComma
        (.FunctionDeclaration (nodeAt 1 0 22)
          (some { Parameters := [parameterAt 6 11, parameterAt 13 18] }))
      = { reported := [missingCommaDiagnostic "test" (parameterAt 6 11)], panic := none } ∧
    ¬ commaStrictlyBetween codeWithoutComma 11 13 := by
  have hb : gapInBounds codeWithoutComma (parameterAt 6 11) (parameterAt 13 18) ∧
      byteAt codeWithoutComma (parameterAt 6 11).EndPos.Offset ≠ some comma := by
    constructor
    · unfold gapInBounds; decide
    · decide
  have h := missingCommas_report_iff_no_comma_between "test" codeWithoutComma
    [parameterAt 6 11, parameterAt 13 18]
    (.FunctionDeclaration (nodeAt 1 0 22)
      (some { Parameters := [parameterAt 6 11, parameterAt 13 18] }))
    ⟨_, Or.inl rfl⟩ (consecutive_pair hb)
  refine ⟨hb, ?_, ?_⟩
  · rw [h.1]; decide
  · exact (h.2.1 1 (parameterAt 6 11) (parameterAt 13 18) (by decide) rfl rfl).1.mp (by decide)

/-- C2: for a function declaration or function expression with parameter list `parameters`,
if none of the inspected gaps between consecutive parameters holds a comma, the visit reports
exactly the diagnostics of the parameters but the last, in parameter order, hence
`n - 1` of them; if every inspected gap holds a comma it reports none; with zero or one
parameter it reports none. In particular `a: Int b: Int` yields exactly one diagnostic, one
column past the end of the first parameter, and `a: Int, b: Int` yields none. -/
theorem missingCommas_count :
    (∀ (location : Location) (code : List Nat) (parameters : List Parameter) (element : Element),
      (∃ node, element = .FunctionDeclaration node (some { Parameters := parameters }) ∨
        element = .Expression (.FunctionExpression node (some { Parameters := parameters }))) →
      ((∀ i previous parameter, 1 ≤ i → parameters[i - 1]? = some previous →
          parameters[i]? = some parameter → gapWithoutComma code previous parameter) →
        visit location code element =
            { reported := parameters.dropLast.map (missingCommaDiagnostic location)
              panic := none } ∧
          (visit location code element).reported.length = parameters.length - 1) ∧
      ((∀ i previous parameter, 1 ≤ i → parameters[i - 1]? = some previous →
          parameters[i]? = some parameter → gapWithComma code previous parameter) →
        visit location code element = { reported := [], panic := none }) ∧
      (parameters.length ≤ 1 →
        visit location code element = { reported := [], panic := none })) ∧
    (sliceString codeWithoutComma 11 13 = some (bytes "t ") ∧
      visit "test" codeWithoutComma
          (.FunctionDeclaration (nodeAt 1 0 22)
            (some { Parameters := [parameterAt 6 11, parameterAt 13 18] }))
        = { reported := [{ Location := "test"
                           Range := { StartPos := at1 12, EndPos := at1 12 }
                           Message := "missing comma" }]
            panic := none }) ∧
    (sliceString codeWithComma 11 14 = some (bytes "t, ") ∧
      visit "test" codeWithComma
          (.FunctionDeclaration (nodeAt 1 0 23)
            (some { Parameters := [parameterAt 6 11, parameterAt 14 19] }))
        = { reported := [], panic := none }) := by
  refine ⟨?_, ⟨by decide, by decide⟩, ⟨by decide, by decide⟩⟩
  intro location code parameters element helement
  rw [visit_functionLike location code element parameters helement]
  refine ⟨?_, ?_, visitParameterList_short location code parameters⟩
  · intro h
    have hchain := chain_of_consecutive h
    have hvisit : visitParameterList location code (some { Parameters := parameters }) =
        { reported := parameters.dropLast.map (missingCommaDiagnostic location)
          panic := none } := by
      cases parameters with
      | nil => exact visitParameterList_nil location code
      | cons first rest =>
        rw [visitParameterList_eq_walk, walk_without_commas location code rest first [] hchain]
        rfl
    rw [hvisit]
    exact ⟨rfl, by simp⟩
  · intro h
    have hchain := chain_of_consecutive h
    cases parameters with
    | nil => exact visitParameterList_nil location code
    | cons first rest =>
      rw [visitParameterList_eq_walk, walk_with_commas location code rest first [] hchain]

/-- Witness for C2: a function expression with the parameters `a: Int b: Int`. -/
theorem missingCommas_count_witness :
    gapWithoutComma codeWithoutComma (parameterAt 6 11) (parameterAt 13 18) ∧
    (visit "test" codeWithoutComma
        (.Expression (.FunctionExpression (nodeAt 1 0 22)
          (some { Parameters := [parameterAt 6 11, parameterAt 13 18] })))).reported.length
      = 2 - 1 := by
  have hgap : gapWithoutComma codeWithoutComma (parameterAt 6 11)
      (parameterAt 13 18) := ⟨bytes "t ", by decide, by decide⟩
  exact ⟨hgap,
    ((missingCommas_count.1 "test" codeWithoutComma
      [parameterAt 6 11, parameterAt 13 18] _ ⟨_, Or.inr rfl⟩).1 (consecutive_pair hgap)).2⟩

/-- C3: every diagnostic the visit of a function declaration or function expression reports
comes from the iteration of some parameter at index `i >= 1`, carries the message
"missing comma", is a point diagnostic (`StartPos` equals `EndPos`), and its position is the
end position of parameter `i - 1` shifted by one: same line, column plus one, offset plus
one. -/
theorem missingCommas_point_after_previous (location : Location) (code : List Nat)
    (parameters : List Parameter) (element : Element) (d : Diagnostic)
    (helement : ∃ node, element = .FunctionDeclaration node (some { Parameters := parameters }) ∨
      element = .Expression (.FunctionExpression node (some { Parameters := parameters })))
    (hd : d ∈ (visit location code element).reported) :
    ∃ i previous, 1 ≤ i ∧ i < parameters.length ∧ parameters[i - 1]? = some previous ∧
      iteration location code parameters i = .ok (some d) ∧
      d.Message = "missing comma" ∧
      d.Range.StartPos = d.Range.EndPos ∧
      d.Range.StartPos = previous.EndPos.Shifted 1 ∧
      d.Range.StartPos.Line = previous.EndPos.Line ∧
      d.Range.StartPos.Column = previous.EndPos.Column + 1 ∧
      d.Range.StartPos.Offset = previous.EndPos.Offset + 1 := by
  rw [visit_functionLike location code element parameters helement] at hd
  unfold visitParameterList at hd
  dsimp only at hd
  rcases forRange_mem _ _ _ d hd with h | ⟨i, _, hi⟩
  · simp at h
  · obtain ⟨h1, hlt, previous, parameter, hprevious, _, _, hdiag⟩ := iteration_reported hi
    refine ⟨i, previous, h1, hlt, hprevious, hi, ?_⟩
    subst hdiag
    simp [missingCommaDiagnostic, Position.Shifted]

/-- Witness for C3: the diagnostic reported on `a: Int b: Int` sits at line 1, column 12,
offset 12, one past the end of the first parameter. -/
theorem missingCommas_point_after_previous_witness :
    missingCommaDiagnostic "test" (parameterAt 6 11) ∈
      (visit "test" codeWithoutComma
        (.FunctionDeclaration (nodeAt 1 0 22)
          (some { Parameters := [parameterAt 6 11, parameterAt 13 18] }))).reported ∧
    ∃ i previous, 1 ≤ i ∧ i < 2 ∧
      [parameterAt 6 11, parameterAt 13 18][i - 1]? = some previous ∧
      (missingCommaDiagnostic "test" (parameterAt 6 11)).Range.StartPos
        = previous.EndPos.Shifted 1 ∧
      (missingCommaDiagnostic "test" (parameterAt 6 11)).Range.StartPos.Column
        = previous.EndPos.Column + 1 := by
  have hd : missingCommaDiagnostic "test" (parameterAt 6 11) ∈
      (visit "test" codeWithoutComma
        (.FunctionDeclaration (nodeAt 1 0 22)
          (some { Parameters := [parameterAt 6 11, parameterAt 13 18] }))).reported := by
    decide
  obtain ⟨i, previous, h1, h2, h3, _, _, _, h4, _, h5, _⟩ :=
    missingCommas_point_after_previous "test" codeWithoutComma
      [parameterAt 6 11, parameterAt 13 18]
      (.FunctionDeclaration (nodeAt 1 0 22)
        (some { Parameters := [parameterAt 6 11, parameterAt 13 18] }))
      (missingCommaDiagnostic "test" (parameterAt 6 11))
      ⟨_, Or.inl rfl⟩ hd
  exact ⟨hd, i, previous, h1, h2, h3, h4, h5⟩

/-- C4: on `fun f(a: Int /*,*/ b: Int)` the two parameters are separated by a comment only,
the inspected gap holds the comma of the comment, and the visit reports nothing; and for
every input, an iteration whose inspected gap holds a comma anywhere reports nothing. -/
theorem missingCommas_comma_in_comment_suppresses :
    (sliceString codeWithCommentedComma 11 19 = some (bytes "t /*,*/ ") ∧
      visit "test" codeWithCommentedComma
          (.FunctionDeclaration (nodeAt 1 0 28)
            (some { Parameters := [parameterAt 6 11, parameterAt 19 24] }))
        = { reported := [], panic := none }) ∧
    ∀ (location : Location) (code : List Nat) (parameters : List Parameter) (i : Nat)
      (previous parameter : Parameter) (gap : List Nat),
      1 ≤ i → parameters[i - 1]? = some previous → parameters[i]? = some parameter →
      sliceString code previous.EndPos.Offset parameter.StartPos.Offset = some gap →
      comma ∈ gap →
      iteration location code parameters i = .ok none := by
  refine ⟨⟨by decide, by decide⟩, ?_⟩
  intro location code parameters i previous parameter gap hi hprevious hparameter hslice hcomma
  rw [iteration_eq hi hprevious hparameter, hslice]
  dsimp only
  rw [if_pos (containsRune_iff.mpr hcomma)]

/-- Witness for C4: a comma inside a longer comment between the two parameters. -/
theorem missingCommas_comma_in_comment_suppresses_witness :
    sliceString codeWithLongComment 11 24 = some (bytes "t /* a, b */ ") ∧
    comma ∈ bytes "t /* a, b */ " ∧
    iteration "test" codeWithLongComment [parameterAt 6 11, parameterAt 24 29] 1 = .ok none :=
  ⟨by decide, by decide,
    missingCommas_comma_in_comment_suppresses.2 "test" codeWithLongComment
      [parameterAt 6 11, parameterAt 24 29] 1 (parameterAt 6 11) (parameterAt 24 29)
      (bytes "t /* a, b */ ") (by decide) rfl rfl (by decide) (by decide)⟩

end MissingCommas

/-! ## Supertype inference: lemmas and theorems -/

section SupertypeInference
open SupertypeInferenceAnalyzer

theorem checkTuples_length_le {Ty : Type} (S : Sema Ty) (location : Location) (element : Element)
    (tuples : List (typeTuple Ty)) :
    (checkTuples S location element tuples).reported = [] ∨
      (checkTuples S location element tuples).reported
        = [inferredTypeDiagnostic location element] := by
  induction tuples with
  | nil => left; rfl
  | cons tuple rest ih =>
    unfold checkTuples
    split
    · left; rfl
    · split
      · exact ih
      · right; rfl

theorem checkTuples_present {Ty : Type} (S : Sema Ty) (location : Location) (element : Element)
    (tuples : List (typeTuple Ty)) (hpresent : ∀ tuple ∈ tuples, tuple.first ≠ none) :
    ((∃ tuple ∈ tuples, tuple.notEqual S) →
      checkTuples S location element tuples
        = { reported := [inferredTypeDiagnostic location element], panic := none }) ∧
    ((¬ ∃ tuple ∈ tuples, tuple.notEqual S) →
      checkTuples S location element tuples = { reported := [], panic := none }) := by
  induction tuples with
  | nil => simp [checkTuples]
  | cons tuple rest ih =>
    have hrest : ∀ t ∈ rest, t.first ≠ none := fun t ht => hpresent t (List.mem_cons_of_mem _ ht)
    have hfirst := hpresent tuple (List.mem_cons_self _ _)
    obtain ⟨ihyes, ihno⟩ := ih hrest
    unfold checkTuples
    cases hf : tuple.first with
    | none => exact absurd hf hfirst
    | some first =>
      dsimp only
      by_cases heq : S.Equal first tuple.second = true
      · rw [if_pos heq]
        have hne : ¬ tuple.notEqual S := by
          rintro ⟨f, hf', hfalse⟩
          rw [hf] at hf'
          cases hf'
          rw [heq] at hfalse
          cases hfalse
        constructor
        · rintro ⟨t, ht, hn⟩
          rcases List.mem_cons.mp ht with h | h
          · subst h; exact absurd hn hne
          · exact ihyes ⟨t, h, hn⟩
        · intro hno
          exact ihno (fun ⟨t, ht, hn⟩ => hno ⟨t, List.mem_cons_of_mem _ ht, hn⟩)
      · rw [if_neg heq]
        constructor
        · intro _; rfl
        · intro hno
          exact absurd ⟨tuple, List.mem_cons_self _ _, first, hf, by simpa using heq⟩ hno

theorem visit_eq_checkTuples_pairs {Ty : Type} (S : Sema Ty) (location : Location)
    (elaboration : Elaboration Ty) (element : Element) :
    visit S location elaboration element
      = checkTuples S location element (pairs elaboration element) := by
  unfold visit pairs
  cases typeTuples elaboration element with
  | none => rfl
  | some tuples => rfl

/-- C5: the visit of any element by the supertype inference analyzer reports at most one
diagnostic, and a reported diagnostic has the message "inferred type may differ" and the
range of the visited node itself; when the first type of each of the node's type pairs is
present (the elaboration precondition), it reports exactly that one diagnostic if and only if
at least one of the node's type pairs has two types that are not Equal, and none otherwise. -/
theorem supertypeInference_at_most_one {Ty : Type} (S : Sema Ty) (location : Location)
    (elaboration : Elaboration Ty) (element : Element) :
    (visit S location elaboration element).reported.length ≤ 1 ∧
    (∀ d ∈ (visit S location elaboration element).reported,
      d = inferredTypeDiagnostic location element) ∧
    ((∀ tuple ∈ pairs elaboration element, tuple.first ≠ none) →
      ((visit S location elaboration element).reported
          = [inferredTypeDiagnostic location element] ↔
        ∃ tuple ∈ pairs elaboration element, tuple.notEqual S) ∧
      ((visit S location elaboration element).reported = [] ↔
        ¬ ∃ tuple ∈ pairs elaboration element, tuple.notEqual S) ∧
      (visit S location elaboration element).panic = none) := by
  rw [visit_eq_checkTuples_pairs]
  refine ⟨?_, ?_, ?_⟩
  · rcases checkTuples_length_le S location element (pairs elaboration element) with h | h <;>
      rw [h] <;> simp
  · intro d hd
    rcases checkTuples_length_le S location element (pairs elaboration element) with h | h <;>
      rw [h] at hd <;> simp at hd
    exact hd
  · intro hpresent
    obtain ⟨hyes, hno⟩ := checkTuples_present S location element _ hpresent
    by_cases hex : ∃ tuple ∈ pairs elaboration element, tuple.notEqual S
    · rw [hyes hex]; simp [hex]
    · rw [hno hex]; simp [hex]

/-- Witness for C5: a conditional expression with branches of type `Int` and `String`. -/
theorem supertypeInference_at_most_one_witness :
    (∀ tuple ∈ pairs sampleElaboration (.Expression (.ConditionalExpression (nodeAt 1 0 9))),
      tuple.first ≠ none) ∧
    (visit sampleSema "test" sampleElaboration
        (.Expression (.ConditionalExpression (nodeAt 1 0 9)))).reported
      = [inferredTypeDiagnostic "test" (.Expression (.ConditionalExpression (nodeAt 1 0 9)))] := by
  have hpairs : pairs sampleElaboration (.Expression (.ConditionalExpression (nodeAt 1 0 9)))
      = [{ first := some SampleType.Int, second := some SampleType.String }] := rfl
  have hpresent : ∀ tuple ∈
      pairs sampleElaboration (.Expression (.ConditionalExpression (nodeAt 1 0 9))),
      tuple.first ≠ none := by
    intro tuple htuple
    rw [hpairs, List.mem_singleton] at htuple
    subst htuple
    simp
  refine ⟨hpresent, ?_⟩
  refine ((supertypeInference_at_most_one sampleSema "test" sampleElaboration
    (.Expression (.ConditionalExpression (nodeAt 1 0 9)))).2.2 hpresent).1.mpr ?_
  exact ⟨_, by rw [hpairs]; exact List.mem_singleton_self _, SampleType.Int, rfl, by decide⟩

/-- C6: for a dictionary expression whose elaborated entry types have at least two entries:
if the key types of the first two entries are not Equal, exactly one diagnostic is reported,
whatever the value types and the later entries are; if the key types are Equal, exactly one
diagnostic is reported when the value types of the first two entries are not Equal and none
when they are Equal. With fewer than two entry types nothing is reported. -/
theorem supertypeInference_dictionary {Ty : Type} (S : Sema Ty) (location : Location)
    (elaboration : Elaboration Ty) (node : Node) :
    (∀ (entry0 entry1 : DictionaryEntryType Ty) (rest : List (DictionaryEntryType Ty))
        (key0 : Ty),
      elaboration.DictionaryExpressionEntryTypes node.ptr = entry0 :: entry1 :: rest →
      entry0.KeyType = some key0 →
      (S.Equal key0 entry1.KeyType = false →
        visit S location elaboration (.Expression (.DictionaryExpression node))
          = { reported :=
                [inferredTypeDiagnostic location (.Expression (.DictionaryExpression node))]
              panic := none }) ∧
      (S.Equal key0 entry1.KeyType = true → ∀ value0 : Ty, entry0.ValueType = some value0 →
        (S.Equal value0 entry1.ValueType = false →
          visit S location elaboration (.Expression (.DictionaryExpression node))
            = { reported :=
                  [inferredTypeDiagnostic location (.Expression (.DictionaryExpression node))]
                panic := none }) ∧
        (S.Equal value0 entry1.ValueType = true →
          visit S location elaboration (.Expression (.DictionaryExpression node))
            = { reported := [], panic := none }))) ∧
    ((elaboration.DictionaryExpressionEntryTypes node.ptr).length < 2 →
      visit S location elaboration (.Expression (.DictionaryExpression node))
        = { reported := [], panic := none }) := by
  constructor
  · intro entry0 entry1 rest key0 hentries hkey
    constructor
    · intro hne
      simp [visit, typeTuples, hentries, checkTuples, hkey, hne, inferredTypeDiagnostic]
    · intro heq value0 hvalue
      constructor
      · intro hne
        simp [visit, typeTuples, hentries, checkTuples, hkey, heq, hvalue, hne,
          inferredTypeDiagnostic]
      · intro heq2
        simp [visit, typeTuples, hentries, checkTuples, hkey, heq, hvalue, heq2]
  · intro hlen
    match h : elaboration.DictionaryExpressionEntryTypes node.ptr, hlen with
    | [], _ => simp [visit, typeTuples, h]
    | [_], _ => simp [visit, typeTuples, h]
    | _ :: _ :: _, hlen =>
      simp only [List.length_cons] at hlen
      omega

/-- Witness for C6. -/
theorem supertypeInference_dictionary_witness :
    sampleSema.Equal SampleType.Int (some SampleType.String) = false ∧
    visit sampleSema "test" sampleElaboration
        (.Expression (.DictionaryExpression (nodeAt 3 0 9)))
      = { reported :=
            [inferredTypeDiagnostic "test" (.Expression (.DictionaryExpression (nodeAt 3 0 9)))]
          panic := none } :=
  ⟨by decide,
    ((supertypeInference_dictionary sampleSema "test" sampleElaboration (nodeAt 3 0 9)).1
      _ _ _ SampleType.Int rfl rfl).1 (by decide)⟩

/-- C7: for an array expression with fewer than two elaborated argument types nothing is
reported; otherwise exactly one diagnostic is reported if the first and second argument types
are not Equal and none if they are Equal, whatever the third and later types are. -/
theorem supertypeInference_array {Ty : Type} (S : Sema Ty) (location : Location)
    (elaboration : Elaboration Ty) (node : Node) :
    ((elaboration.ArrayExpressionArgumentTypes node.ptr).length < 2 →
      visit S location elaboration (.Expression (.ArrayExpression node))
        = { reported := [], panic := none }) ∧
    (∀ (first : Ty) (second : Option Ty) (rest : List (Option Ty)),
      elaboration.ArrayExpressionArgumentTypes node.ptr = some first :: second :: rest →
      (S.Equal first second = false →
        visit S location elaboration (.Expression (.ArrayExpression node))
          = { reported :=
                [inferredTypeDiagnostic location (.Expression (.ArrayExpression node))]
              panic := none }) ∧
      (S.Equal first second = true →
        visit S location elaboration (.Expression (.ArrayExpression node))
          = { reported := [], panic := none })) := by
  constructor
  · intro hlen
    match h : elaboration.ArrayExpressionArgumentTypes node.ptr, hlen with
    | [], _ => simp [visit, typeTuples, h]
    | [_], _ => simp [visit, typeTuples, h]
    | _ :: _ :: _, hlen =>
      simp only [List.length_cons] at hlen
      omega
  · intro first second rest htypes
    constructor
    · intro hne
      simp [visit, typeTuples, htypes, checkTuples, hne, inferredTypeDiagnostic]
    · intro heq
      simp [visit, typeTuples, htypes, checkTuples, heq]

/-- Witness for C7. -/
theorem supertypeInference_array_witness :
    sampleSema.Equal SampleType.Int (some SampleType.String) = false ∧
    visit sampleSema "test" sampleElaboration (.Expression (.ArrayExpression (nodeAt 2 0 9)))
      = { reported :=
            [inferredTypeDiagnostic "test" (.Expression (.ArrayExpression (nodeAt 2 0 9)))]
          panic := none } :=
  ⟨by decide,
    ((supertypeInference_array sampleSema "test" sampleElaboration (nodeAt 2 0 9)).2
      SampleType.Int (some SampleType.String) [some SampleType.Int] rfl).1 (by decide)⟩

/-- C8: for a conditional expression exactly one "inferred type may differ" diagnostic, at
the range of the conditional, is reported if the elaborated then-branch type is not Equal to
the elaborated else-branch type, and none if they are Equal. -/
theorem supertypeInference_conditional {Ty : Type} (S : Sema Ty) (location : Location)
    (elaboration : Elaboration Ty) (node : Node) (thenType : Ty)
    (hthen : elaboration.ConditionalExpressionThenType node.ptr = some thenType) :
    (S.Equal thenType (elaboration.ConditionalExpressionElseType node.ptr) = false →
      visit S location elaboration (.Expression (.ConditionalExpression node))
        = { reported :=
              [{ Location := location
                 Range := NewRangeFromPositioned node
                 Message := "inferred type may differ" }]
            panic := none }) ∧
    (S.Equal thenType (elaboration.ConditionalExpressionElseType node.ptr) = true →
      visit S location elaboration (.Expression (.ConditionalExpression node))
        = { reported := [], panic := none }) := by
  constructor
  · intro hne
    simp [visit, typeTuples, checkTuples, hthen, hne, Element.node, Expression.node]
  · intro heq
    simp [visit, typeTuples, checkTuples, hthen, heq]

/-- Witness for C8. -/
theorem supertypeInference_conditional_witness :
    sampleElaboration.ConditionalExpressionThenType 1 = some SampleType.Int ∧
    visit sampleSema "test" sampleElaboration
        (.Expression (.ConditionalExpression (nodeAt 1 0 9)))
      = { reported :=
            [{ Location := "test"
               Range := { StartPos := at1 0, EndPos := at1 9 }
               Message := "inferred type may differ" }]
          panic := none } :=
  ⟨rfl,
    (supertypeInference_conditional sampleSema "test" sampleElaboration (nodeAt 1 0 9)
      SampleType.Int rfl).1 (by decide)⟩

end SupertypeInference

/-! ## Reference to optional and number supertypes: theorems -/

section ReferenceAndNumber

/-- C9: for a reference expression, exactly one diagnostic, with the message
"reference to optional" and the range of the index expression, is reported if the referenced
expression is an index expression and the non-authorized element type of its elaborated
indexed type is an optional type; in every other case nothing is reported. -/
theorem referenceToOptional_report {Ty : Type} (S : Sema Ty) (location : Location)
    (elaboration : Elaboration Ty) (node : Node) (expression : Expression) :
    (∀ (indexExpression : Node) (indexedType : Ty),
      expression = .IndexExpression indexExpression →
      elaboration.IndexExpressionIndexedTypes indexExpression.ptr = some indexedType →
      elementTypeIsOptional S indexedType →
      ReferenceToOptionalAnalyzer.visit S location elaboration
          (.Expression (.ReferenceExpression node expression))
        = { reported :=
              [{ Location := location
                 Range :=
                   { StartPos := indexExpression.StartPos, EndPos := indexExpression.EndPos }
                 Message := "reference to optional" }]
            panic := none }) ∧
    ((¬ ∃ (indexExpression : Node) (indexedType : Ty),
        expression = .IndexExpression indexExpression ∧
        elaboration.IndexExpressionIndexedTypes indexExpression.ptr = some indexedType ∧
        elementTypeIsOptional S indexedType) →
      (ReferenceToOptionalAnalyzer.visit S location elaboration
          (.Expression (.ReferenceExpression node expression))).reported = []) ∧
    (∀ (indexExpression : Node) (indexedType : Ty),
      expression = .IndexExpression indexExpression →
      elaboration.IndexExpressionIndexedTypes indexExpression.ptr = some indexedType →
      ¬ elementTypeIsOptional S indexedType →
      ReferenceToOptionalAnalyzer.visit S location elaboration
          (.Expression (.ReferenceExpression node expression))
        = { reported := [], panic := none }) ∧
    ((∀ indexExpression : Node, expression ≠ .IndexExpression indexExpression) →
      ReferenceToOptionalAnalyzer.visit S location elaboration
          (.Expression (.ReferenceExpression node expression))
        = { reported := [], panic := none }) := by
  have hindex : ∀ (indexExpression : Node) (indexedType : Ty),
      elaboration.IndexExpressionIndexedTypes indexExpression.ptr = some indexedType →
      (elementTypeIsOptional S indexedType →
        ReferenceToOptionalAnalyzer.visit S location elaboration
            (.Expression (.ReferenceExpression node (.IndexExpression indexExpression)))
          = { reported :=
                [{ Location := location
                   Range :=
                     { StartPos := indexExpression.StartPos, EndPos := indexExpression.EndPos }
                   Message := "reference to optional" }]
              panic := none }) ∧
      (¬ elementTypeIsOptional S indexedType →
        ReferenceToOptionalAnalyzer.visit S location elaboration
            (.Expression (.ReferenceExpression node (.IndexExpression indexExpression)))
          = { reported := [], panic := none }) := by
    intro indexExpression indexedType hindexed
    unfold ReferenceToOptionalAnalyzer.visit elementTypeIsOptional
    simp only [hindexed]
    cases hresult : S.ElementType indexedType false with
    | none => simp
    | some resultType =>
      by_cases hoptional : S.IsOptionalType resultType = true
      · simp [hoptional, NewRangeFromPositioned]
      · simp [hoptional]
  have hother : (∀ indexExpression : Node, expression ≠ .IndexExpression indexExpression) →
      ReferenceToOptionalAnalyzer.visit S location elaboration
          (.Expression (.ReferenceExpression node expression))
        = { reported := [], panic := none } := by
    intro hnot
    unfold ReferenceToOptionalAnalyzer.visit
    cases expression with
    | IndexExpression indexExpression => exact absurd rfl (hnot indexExpression)
    | _ => rfl
  refine ⟨?_, ?_, ?_, hother⟩
  · intro indexExpression indexedType hexpression hindexed hoptional
    subst hexpression
    exact (hindex indexExpression indexedType hindexed).1 hoptional
  · intro hnone
    by_cases hkind : ∃ indexExpression : Node, expression = .IndexExpression indexExpression
    · obtain ⟨indexExpression, hexpression⟩ := hkind
      subst hexpression
      cases hindexed : elaboration.IndexExpressionIndexedTypes indexExpression.ptr with
      | none => simp [ReferenceToOptionalAnalyzer.visit, hindexed]
      | some indexedType =>
        have hnot : ¬ elementTypeIsOptional S indexedType :=
          fun h => hnone ⟨indexExpression, indexedType, rfl, hindexed, h⟩
        rw [(hindex indexExpression indexedType hindexed).2 hnot]
    · rw [hother (fun indexExpression h => hkind ⟨indexExpression, h⟩)]
  · intro indexExpression indexedType hexpression hindexed hnot
    subst hexpression
    exact (hindex indexExpression indexedType hindexed).2 hnot

/-- Witness for C9: a reference to an element of an array of optional integers. -/
theorem referenceToOptional_report_witness :
    elementTypeIsOptional sampleSema (SampleType.VariableSized (SampleType.Optional SampleType.Int)) ∧
    ReferenceToOptionalAnalyzer.visit sampleSema "test" sampleElaboration
        (.Expression (.ReferenceExpression (nodeAt 7 0 12) (.IndexExpression (nodeAt 5 1 4))))
      = { reported :=
            [{ Location := "test"
               Range := { StartPos := at1 1, EndPos := at1 4 }
               Message := "reference to optional" }]
          panic := none } := by
  have hoptional : elementTypeIsOptional sampleSema
      (SampleType.VariableSized (SampleType.Optional SampleType.Int)) :=
    ⟨SampleType.Optional SampleType.Int, rfl, rfl⟩
  exact ⟨hoptional,
    (referenceToOptional_report sampleSema "test" sampleElaboration (nodeAt 7 0 12)
      (.IndexExpression (nodeAt 5 1 4))).1 (nodeAt 5 1 4) _ rfl rfl hoptional⟩

theorem numberSupertypesLookup_iff {Ty : Type} [DecidableEq Ty] (S : Sema Ty) (leftType : Option Ty) :
    numberSupertypesLookup S leftType = true ↔
      ∃ type, leftType = some type ∧ isNumberSupertype S type := by
  unfold numberSupertypesLookup isNumberSupertype numberSupertypes
  cases leftType with
  | none => simp
  | some type => simp

/-- C10: for a binary expression, exactly one diagnostic, with the message
"arithmetic operation on number supertype" and the range of the binary expression, is
reported if and only if the elaborated type of the left operand is one of the six number
supertype markers; for any other left type, and for a missing entry, nothing is reported. -/
theorem numberSupertype_report {Ty : Type} [DecidableEq Ty] (S : Sema Ty) (location : Location)
    (elaboration : Elaboration Ty) (node : Node) (operation : Nat) (left right : Expression) :
    ((∃ type, elaboration.BinaryExpressionLeftTypes node.ptr = some type ∧
        isNumberSupertype S type) →
      NumberSupertypeBinaryOperationsAnalyzer.visit S location elaboration
          (.Expression (.BinaryExpression node operation left right))
        = { reported :=
              [{ Location := location
                 Range := { StartPos := node.StartPos, EndPos := node.EndPos }
                 Message := "arithmetic operation on number supertype" }]
            panic := none }) ∧
    ((¬ ∃ type, elaboration.BinaryExpressionLeftTypes node.ptr = some type ∧
        isNumberSupertype S type) →
      NumberSupertypeBinaryOperationsAnalyzer.visit S location elaboration
          (.Expression (.BinaryExpression node operation left right))
        = { reported := [], panic := none }) ∧
    (elaboration.BinaryExpressionLeftTypes node.ptr = none →
      NumberSupertypeBinaryOperationsAnalyzer.visit S location elaboration
          (.Expression (.BinaryExpression node operation left right))
        = { reported := [], panic := none }) ∧
    ((NumberSupertypeBinaryOperationsAnalyzer.visit S location elaboration
          (.Expression (.BinaryExpression node operation left right))).reported.length = 1 ↔
      ∃ type, elaboration.BinaryExpressionLeftTypes node.ptr = some type ∧
        isNumberSupertype S type) := by
  have hyes : (∃ type, elaboration.BinaryExpressionLeftTypes node.ptr = some type ∧
        isNumberSupertype S type) →
      NumberSupertypeBinaryOperationsAnalyzer.visit S location elaboration
          (.Expression (.BinaryExpression node operation left right))
        = { reported :=
              [{ Location := location
                 Range := { StartPos := node.StartPos, EndPos := node.EndPos }
                 Message := "arithmetic operation on number supertype" }]
            panic := none } := by
    intro h
    rw [← numberSupertypesLookup_iff] at h
    simp [NumberSupertypeBinaryOperationsAnalyzer.visit, h, NewRangeFromPositioned]
  have hno : (¬ ∃ type, elaboration.BinaryExpressionLeftTypes node.ptr = some type ∧
        isNumberSupertype S type) →
      NumberSupertypeBinaryOperationsAnalyzer.visit S location elaboration
          (.Expression (.BinaryExpression node operation left right))
        = { reported := [], panic := none } := by
    intro h
    rw [← numberSupertypesLookup_iff] at h
    simp [NumberSupertypeBinaryOperationsAnalyzer.visit, h]
  refine ⟨hyes, hno, ?_, ?_⟩
  · intro hnone
    apply hno
    rintro ⟨type, htype, _⟩
    rw [hnone] at htype
    cases htype
  · constructor
    · intro hlen
      by_contra hcontra
      rw [hno hcontra] at hlen
      simp at hlen
    · intro h
      rw [hyes h]
      rfl

/-- Witness for C10: a binary expression whose left operand has type `Integer`. -/
theorem numberSupertype_report_witness :
    (∃ type, sampleElaboration.BinaryExpressionLeftTypes 6 = some type ∧
      isNumberSupertype sampleSema type) ∧
    NumberSupertypeBinaryOperationsAnalyzer.visit sampleSema "test" sampleElaboration
        (.Expression (.BinaryExpression (nodeAt 6 0 4) 0 (.Other (nodeAt 8 0 0))
          (.Other (nodeAt 9 4 4))))
      = { reported :=
            [{ Location := "test"
               Range := { StartPos := at1 0, EndPos := at1 4 }
               Message := "arithmetic operation on number supertype" }]
          panic := none } := by
  have h : ∃ type, sampleElaboration.BinaryExpressionLeftTypes 6 = some type ∧
      isNumberSupertype sampleSema type :=
    ⟨SampleType.Integer, rfl, Or.inr (Or.inr (Or.inl rfl))⟩
  exact ⟨h, (numberSupertype_report sampleSema "test" sampleElaboration (nodeAt 6 0 4) 0
    (.Other (nodeAt 8 0 0)) (.Other (nodeAt 9 4 4))).1 h⟩

end ReferenceAndNumber

/-! ## Deprecated key functions: theorems -/

section DeprecatedKeyFunctions

theorem deprecatedKeyMessage_eq (old new : String) :
    "use of deprecated key management API: " ++
        ("replace \x27" ++ old ++ "\x27 with \x27" ++ new ++ "\x27")
      = deprecatedKeyMessage old new := by
  unfold deprecatedKeyMessage
  simp only [String.append_assoc]
  rw [← String.append_assoc]
  rfl

theorem deprecatedKey_member {Ty : Type} [DecidableEq Ty] (S : Sema Ty) (location : Location)
    (elaboration : Elaboration Ty) (node memberExpression : Node) (member : Member Ty)
    (hmember : (elaboration.MemberExpressionMemberInfos memberExpression.ptr).Member
      = some member)
    (hcontainer : member.ContainerType = some S.AuthAccountType) :
    DeprecatedKeyFunctionsAnalyzer.visit S location elaboration
        (.Expression (.InvocationExpression node (.MemberExpression memberExpression)))
      = if member.Identifier = S.AuthAccountAddPublicKeyField then
          { reported :=
              [{ Location := location
                 Range := { StartPos := node.StartPos, EndPos := node.EndPos }
                 Message := deprecatedKeyMessage S.AuthAccountAddPublicKeyField "keys.add" }]
            panic := none }
        else if member.Identifier = S.AuthAccountRemovePublicKeyField then
          { reported :=
              [{ Location := location
                 Range := { StartPos := node.StartPos, EndPos := node.EndPos }
                 Message :=
                   deprecatedKeyMessage S.AuthAccountRemovePublicKeyField "keys.revoke" }]
            panic := none }
        else { reported := [], panic := none } := by
  unfold DeprecatedKeyFunctionsAnalyzer.visit
  simp only [hmember, hcontainer, ne_eq, not_true_eq_false, if_false]
  by_cases hadd : member.Identifier = S.AuthAccountAddPublicKeyField
  · rw [if_pos hadd, if_pos hadd]
    simp only [NewRangeFromPositioned, deprecatedKeyMessage_eq]
  · rw [if_neg hadd, if_neg hadd]
    by_cases hremove : member.Identifier = S.AuthAccountRemovePublicKeyField
    · rw [if_pos hremove, if_pos hremove]
      simp only [NewRangeFromPositioned, deprecatedKeyMessage_eq]
    · rw [if_neg hremove, if_neg hremove]

/-- C11: for an invocation expression, with the two deprecated field names distinct (Go
rejects a switch with two equal constant cases), the analyzer reports exactly one diagnostic,
at the range of the invocation, if and only if the invoked expression is a member expression
whose elaborated member is present, has the account type as its container type and has the
add-public-key or the remove-public-key field name as identifier. The message is then
"use of deprecated key management API: replace '<old>' with '<new>'" with `<old>` that field
name and `<new>` "keys.add" for the add-public-key field and "keys.revoke" for the
remove-public-key field. In every other case nothing is reported. -/
theorem deprecatedKeyFunctions_report {Ty : Type} [DecidableEq Ty] (S : Sema Ty)
    (hdistinct : S.AuthAccountAddPublicKeyField ≠ S.AuthAccountRemovePublicKeyField)
    (location : Location) (elaboration : Elaboration Ty) (node : Node)
    (invokedExpression : Expression) :
    (∀ (memberExpression : Node) (member : Member Ty),
      invokedExpression = .MemberExpression memberExpression →
      (elaboration.MemberExpressionMemberInfos memberExpression.ptr).Member = some member →
      member.ContainerType = some S.AuthAccountType →
      (member.Identifier = S.AuthAccountAddPublicKeyField →
        DeprecatedKeyFunctionsAnalyzer.visit S location elaboration
            (.Expression (.InvocationExpression node invokedExpression))
          = { reported :=
                [{ Location := location
                   Range := { StartPos := node.StartPos, EndPos := node.EndPos }
                   Message :=
                     deprecatedKeyMessage S.AuthAccountAddPublicKeyField "keys.add" }]
              panic := none }) ∧
      (member.Identifier = S.AuthAccountRemovePublicKeyField →
        DeprecatedKeyFunctionsAnalyzer.visit S location elaboration
            (.Expression (.InvocationExpression node invokedExpression))
          = { reported :=
                [{ Location := location
                   Range := { StartPos := node.StartPos, EndPos := node.EndPos }
                   Message :=
                     deprecatedKeyMessage S.AuthAccountRemovePublicKeyField "keys.revoke" }]
              panic := none })) ∧
    ((¬ isDeprecatedKeyFunction S elaboration invokedExpression) →
      DeprecatedKeyFunctionsAnalyzer.visit S location elaboration
          (.Expression (.InvocationExpression node invokedExpression))
        = { reported := [], panic := none }) ∧
    ((DeprecatedKeyFunctionsAnalyzer.visit S location elaboration
          (.Expression (.InvocationExpression node invokedExpression))).reported.length = 1 ↔
      isDeprecatedKeyFunction S elaboration invokedExpression) := by
  have hyes : ∀ (memberExpression : Node) (member : Member Ty),
      invokedExpression = .MemberExpression memberExpression →
      (elaboration.MemberExpressionMemberInfos memberExpression.ptr).Member = some member →
      member.ContainerType = some S.AuthAccountType →
      (member.Identifier = S.AuthAccountAddPublicKeyField →
        DeprecatedKeyFunctionsAnalyzer.visit S location elaboration
            (.Expression (.InvocationExpression node invokedExpression))
          = { reported :=
                [{ Location := location
                   Range := { StartPos := node.StartPos, EndPos := node.EndPos }
                   Message :=
                     deprecatedKeyMessage S.AuthAccountAddPublicKeyField "keys.add" }]
              panic := none }) ∧
      (member.Identifier = S.AuthAccountRemovePublicKeyField →
        DeprecatedKeyFunctionsAnalyzer.visit S location elaboration
            (.Expression (.InvocationExpression node invokedExpression))
          = { reported :=
                [{ Location := location
                   Range := { StartPos := node.StartPos, EndPos := node.EndPos }
                   Message :=
                     deprecatedKeyMessage S.AuthAccountRemovePublicKeyField "keys.revoke" }]
              panic := none }) := by
    intro memberExpression member hexpression hmember hcontainer
    subst hexpression
    rw [deprecatedKey_member S location elaboration node memberExpression member hmember
      hcontainer]
    constructor
    · intro hadd
      rw [if_pos hadd]
    · intro hremove
      have hadd : ¬ member.Identifier = S.AuthAccountAddPublicKeyField := by
        rw [hremove]
        exact fun h => hdistinct h.symm
      rw [if_neg hadd, if_pos hremove]
  have hno : (¬ isDeprecatedKeyFunction S elaboration invokedExpression) →
      DeprecatedKeyFunctionsAnalyzer.visit S location elaboration
          (.Expression (.InvocationExpression node invokedExpression))
        = { reported := [], panic := none } := by
    intro hnot
    cases invokedExpression with
    | MemberExpression memberExpression =>
      cases hmember : (elaboration.MemberExpressionMemberInfos memberExpression.ptr).Member with
      | none => simp [DeprecatedKeyFunctionsAnalyzer.visit, hmember]
      | some member =>
        by_cases hcontainer : member.ContainerType = some S.AuthAccountType
        · rw [deprecatedKey_member S location elaboration node memberExpression member hmember
            hcontainer]
          have hadd : ¬ member.Identifier = S.AuthAccountAddPublicKeyField :=
            fun h => hnot ⟨memberExpression, member, rfl, hmember, hcontainer, Or.inl h⟩
          have hremove : ¬ member.Identifier = S.AuthAccountRemovePublicKeyField :=
            fun h => hnot ⟨memberExpression, member, rfl, hmember, hcontainer, Or.inr h⟩
          rw [if_neg hadd, if_neg hremove]
        · simp [DeprecatedKeyFunctionsAnalyzer.visit, hmember, hcontainer]
    | _ => rfl
  refine ⟨hyes, hno, ?_, ?_⟩
  · intro hlen
    by_contra hnot
    rw [hno hnot] at hlen
    simp at hlen
  · rintro ⟨memberExpression, member, hexpression, hmember, hcontainer, hadd | hremove⟩
    · rw [(hyes memberExpression member hexpression hmember hcontainer).1 hadd]
      rfl
    · rw [(hyes memberExpression member hexpression hmember hcontainer).2 hremove]
      rfl

/-- Witness for C11: an invocation of `addPublicKey` and one of `removePublicKey` on the
account type. -/
theorem deprecatedKeyFunctions_report_witness :
    sampleSema.AuthAccountAddPublicKeyField ≠ sampleSema.AuthAccountRemovePublicKeyField ∧
    DeprecatedKeyFunctionsAnalyzer.visit sampleSema "test" sampleKeyElaboration
        (.Expression (.InvocationExpression (nodeAt 10 0 20) (.MemberExpression (nodeAt 11 0 12))))
      = { reported :=
            [{ Location := "test"
               Range := { StartPos := at1 0, EndPos := at1 20 }
               Message := "use of deprecated key management API: "
                 ++ "replace \x27addPublicKey\x27 with \x27keys.add\x27" }]
          panic := none } ∧
    DeprecatedKeyFunctionsAnalyzer.visit sampleSema "test" sampleKeyElaboration
        (.Expression (.InvocationExpression (nodeAt 10 0 20) (.MemberExpression (nodeAt 12 0 12))))
      = { reported :=
            [{ Location := "test"
               Range := { StartPos := at1 0, EndPos := at1 20 }
               Message := "use of deprecated key management API: "
                 ++ "replace \x27removePublicKey\x27 with \x27keys.revoke\x27" }]
          panic := none } := by
  have hdistinct : sampleSema.AuthAccountAddPublicKeyField
      ≠ sampleSema.AuthAccountRemovePublicKeyField := by decide
  refine ⟨hdistinct, ?_, ?_⟩
  · exact ((deprecatedKeyFunctions_report sampleSema hdistinct "test" sampleKeyElaboration
      (nodeAt 10 0 20) (.MemberExpression (nodeAt 11 0 12))).1 (nodeAt 11 0 12) _ rfl rfl rfl).1
      rfl
  · exact ((deprecatedKeyFunctions_report sampleSema hdistinct "test" sampleKeyElaboration
      (nodeAt 10 0 20) (.MemberExpression (nodeAt 12 0 12))).1 (nodeAt 12 0 12) _ rfl rfl rfl).2
      rfl

end DeprecatedKeyFunctions

/-! ## Safety of the lookups, dependence on the left type, slice bounds, registry -/

section Safety

theorem checkTuples_no_panic {Ty : Type} (S : Sema Ty) (location : Location)
    (element : Element) (tuples : List (typeTuple Ty))
    (hpresent : ∀ tuple ∈ tuples, tuple.first ≠ none) :
    (SupertypeInferenceAnalyzer.checkTuples S location element tuples).panic = none := by
  induction tuples with
  | nil => rfl
  | cons tuple rest ih =>
    have hrest : ∀ t ∈ rest, t.first ≠ none := fun t ht => hpresent t (List.mem_cons_of_mem _ ht)
    have hfirst := hpresent tuple (List.mem_cons_self _ _)
    unfold SupertypeInferenceAnalyzer.checkTuples
    cases hf : tuple.first with
    | none => exact absurd hf hfirst
    | some first =>
      dsimp only
      by_cases heq : S.Equal first tuple.second = true
      · rw [if_pos heq]; exact ih hrest
      · rw [if_neg heq]

theorem pairs_present_of_complete {Ty : Type} (elaboration : Elaboration Ty)
    (element : Element) (h : elaborationComplete elaboration element) :
    ∀ tuple ∈ SupertypeInferenceAnalyzer.pairs elaboration element, tuple.first ≠ none := by
  intro tuple htuple
  unfold SupertypeInferenceAnalyzer.pairs SupertypeInferenceAnalyzer.typeTuples at htuple
  match element, h, htuple with
  | .Expression (.ArrayExpression node), h, htuple =>
    simp only [elaborationComplete] at h
    match hlist : elaboration.ArrayExpressionArgumentTypes node.ptr with
    | [] => simp [hlist] at htuple
    | [_] => simp [hlist] at htuple
    | first :: second :: rest =>
      simp only [hlist, Option.getD_some, List.mem_singleton] at htuple
      subst htuple
      exact h first (by rw [hlist]; exact List.mem_cons_self _ _)
  | .Expression (.DictionaryExpression node), h, htuple =>
    simp only [elaborationComplete] at h
    match hlist : elaboration.DictionaryExpressionEntryTypes node.ptr with
    | [] => simp [hlist] at htuple
    | [_] => simp [hlist] at htuple
    | entry0 :: entry1 :: rest =>
      have h0 := h entry0 (by rw [hlist]; exact List.mem_cons_self _ _)
      simp only [hlist, Option.getD_some, List.mem_cons, List.mem_singleton,
        List.not_mem_nil, or_false] at htuple
      rcases htuple with htuple | htuple
      · subst htuple; exact h0.1
      · subst htuple; exact h0.2
  | .Expression (.ConditionalExpression node), h, htuple =>
    simp only [elaborationComplete] at h
    simp only [Option.getD_some, List.mem_singleton] at htuple
    subst htuple
    exact h.1
  | .Expression (.IndexExpression _), _, htuple => simp at htuple
  | .Expression (.ReferenceExpression _ _), _, htuple => simp at htuple
  | .Expression (.InvocationExpression _ _), _, htuple => simp at htuple
  | .Expression (.MemberExpression _), _, htuple => simp at htuple
  | .Expression (.BinaryExpression _ _ _ _), _, htuple => simp at htuple
  | .Expression (.FunctionExpression _ _), _, htuple => simp at htuple
  | .Expression (.Other _), _, htuple => simp at htuple
  | .FunctionDeclaration _ _, _, htuple => simp at htuple
  | .Other _, _, htuple => simp at htuple

theorem referenceToOptional_no_panic {Ty : Type} (S : Sema Ty) (location : Location)
    (elaboration : Elaboration Ty) (element : Element)
    (h : elaborationComplete elaboration element) :
    (ReferenceToOptionalAnalyzer.visit S location elaboration element).panic = none := by
  unfold ReferenceToOptionalAnalyzer.visit
  split
  · rename_i expression
    split
    · rename_i indexExpression
      simp only [elaborationComplete] at h
      split
      · rename_i hnone; exact absurd hnone h
      · split
        · rfl
        · split <;> rfl
    · rfl
  · rfl

theorem numberSupertype_no_panic {Ty : Type} [DecidableEq Ty] (S : Sema Ty)
    (location : Location) (elaboration : Elaboration Ty) (element : Element) :
    (NumberSupertypeBinaryOperationsAnalyzer.visit S location elaboration element).panic
      = none := by
  unfold NumberSupertypeBinaryOperationsAnalyzer.visit
  split
  · dsimp only
    split <;> rfl
  · rfl

theorem deprecatedKeyFunctions_no_panic {Ty : Type} [DecidableEq Ty] (S : Sema Ty)
    (location : Location) (elaboration : Elaboration Ty) (element : Element) :
    (DeprecatedKeyFunctionsAnalyzer.visit S location elaboration element).panic = none := by
  unfold DeprecatedKeyFunctionsAnalyzer.visit
  split
  · split
    · dsimp only
      split
      · rfl
      · split
        · rfl
        · split <;> rfl
    · rfl
  · rfl

/-- C14: when the elaboration holds a non-nil entry for every lookup made at the visited
element, the visit functions of the reference to optional and supertype inference analyzers
do not panic; the visit functions of the number supertype and deprecated key functions
analyzers never panic, and a missing entry there yields no report. -/
theorem elaborationComplete_no_panic {Ty : Type} [DecidableEq Ty] (S : Sema Ty)
    (location : Location) (elaboration : Elaboration Ty) (element : Element) :
    (elaborationComplete elaboration element →
      (ReferenceToOptionalAnalyzer.visit S location elaboration element).panic = none ∧
      (SupertypeInferenceAnalyzer.visit S location elaboration element).panic = none) ∧
    (NumberSupertypeBinaryOperationsAnalyzer.visit S location elaboration element).panic
      = none ∧
    (DeprecatedKeyFunctionsAnalyzer.visit S location elaboration element).panic = none ∧
    (∀ (node : Node) (operation : Nat) (left right : Expression),
      element = .Expression (.BinaryExpression node operation left right) →
      elaboration.BinaryExpressionLeftTypes node.ptr = none →
      NumberSupertypeBinaryOperationsAnalyzer.visit S location elaboration element
        = { reported := [], panic := none }) ∧
    (∀ (node memberExpression : Node),
      element = .Expression (.InvocationExpression node (.MemberExpression memberExpression)) →
      (elaboration.MemberExpressionMemberInfos memberExpression.ptr).Member = none →
      DeprecatedKeyFunctionsAnalyzer.visit S location elaboration element
        = { reported := [], panic := none }) := by
  refine ⟨?_, numberSupertype_no_panic S location elaboration element,
    deprecatedKeyFunctions_no_panic S location elaboration element, ?_, ?_⟩
  · intro h
    refine ⟨referenceToOptional_no_panic S location elaboration element h, ?_⟩
    rw [visit_eq_checkTuples_pairs]
    exact checkTuples_no_panic S location element _
      (pairs_present_of_complete elaboration element h)
  · intro node operation left right helement hnone
    subst helement
    simp [NumberSupertypeBinaryOperationsAnalyzer.visit, hnone, numberSupertypesLookup]
  · intro node memberExpression helement hnone
    subst helement
    simp [DeprecatedKeyFunctionsAnalyzer.visit, hnone]


/-- Witness for C14. -/
theorem elaborationComplete_no_panic_witness :
    elaborationComplete sampleElaboration
      (.Expression (.ReferenceExpression (nodeAt 7 0 12) (.IndexExpression (nodeAt 5 1 4)))) ∧
    (ReferenceToOptionalAnalyzer.visit sampleSema "test" sampleElaboration
      (.Expression (.ReferenceExpression (nodeAt 7 0 12)
        (.IndexExpression (nodeAt 5 1 4))))).panic = none ∧
    (ReferenceToOptionalAnalyzer.visit sampleSema "test" sampleElaboration
      (.Expression (.ReferenceExpression (nodeAt 7 0 12)
        (.IndexExpression (nodeAt 99 1 4))))).panic = some .nilDereference := by
  have h : elaborationComplete sampleElaboration
      (.Expression (.ReferenceExpression (nodeAt 7 0 12) (.IndexExpression (nodeAt 5 1 4)))) := by
    simp [elaborationComplete, sampleElaboration, nodeAt]
  exact ⟨h, ((elaborationComplete_no_panic sampleSema "test" sampleElaboration _).1 h).1,
    by decide⟩

end Safety

section LeftType

/-- C15: the visits of two binary expressions with the same elaborated left-operand type and
the same range produce the same outcome, whatever their operators, operands and node
identities are; and a binary expression with any operator whose left operand has type
`Integer` is reported as "arithmetic operation on number supertype". -/
theorem numberSupertype_depends_on_left_type {Ty : Type} [DecidableEq Ty] (S : Sema Ty)
    (location : Location) :
    (∀ (elaboration1 elaboration2 : Elaboration Ty) (node1 node2 : Node)
        (operation1 operation2 : Nat) (left1 left2 right1 right2 : Expression),
      elaboration1.BinaryExpressionLeftTypes node1.ptr
        = elaboration2.BinaryExpressionLeftTypes node2.ptr →
      NewRangeFromPositioned node1 = NewRangeFromPositioned node2 →
      NumberSupertypeBinaryOperationsAnalyzer.visit S location elaboration1
          (.Expression (.BinaryExpression node1 operation1 left1 right1))
        = NumberSupertypeBinaryOperationsAnalyzer.visit S location elaboration2
          (.Expression (.BinaryExpression node2 operation2 left2 right2))) ∧
    (∀ (elaboration : Elaboration Ty) (node : Node) (operation : Nat)
        (left right : Expression),
      elaboration.BinaryExpressionLeftTypes node.ptr = some S.IntegerType →
      NumberSupertypeBinaryOperationsAnalyzer.visit S location elaboration
          (.Expression (.BinaryExpression node operation left right))
        = { reported :=
              [{ Location := location
                 Range := { StartPos := node.StartPos, EndPos := node.EndPos }
                 Message := "arithmetic operation on number supertype" }]
            panic := none }) := by
  constructor
  · intro elaboration1 elaboration2 node1 node2 operation1 operation2 left1 left2 right1 right2
      hleft hrange
    unfold NumberSupertypeBinaryOperationsAnalyzer.visit
    simp only [hleft, hrange]
  · intro elaboration node operation left right hleft
    simp [NumberSupertypeBinaryOperationsAnalyzer.visit, hleft, numberSupertypesLookup,
      numberSupertypes, NewRangeFromPositioned]

/-- Witness for C15. -/
theorem numberSupertype_depends_on_left_type_witness :
    sampleElaboration.BinaryExpressionLeftTypes 6 = some sampleSema.IntegerType ∧
    NumberSupertypeBinaryOperationsAnalyzer.visit sampleSema "test" sampleElaboration
        (.Expression (.BinaryExpression (nodeAt 6 0 4) 17 (.Other (nodeAt 8 0 0))
          (.Other (nodeAt 9 4 4))))
      = { reported :=
            [{ Location := "test"
               Range := { StartPos := at1 0, EndPos := at1 4 }
               Message := "arithmetic operation on number supertype" }]
          panic := none } :=
  ⟨rfl, (numberSupertype_depends_on_left_type sampleSema "test").2 sampleElaboration
    (nodeAt 6 0 4) 17 (.Other (nodeAt 8 0 0)) (.Other (nodeAt 9 4 4)) rfl⟩

end LeftType

section SliceBounds
open ParameterListMissingCommasAnalyzer

theorem sliceString_none_of_not_inBounds {code : List Nat} {previous parameter : Parameter}
    (h : ¬ gapInBounds code previous parameter) :
    sliceString code previous.EndPos.Offset parameter.StartPos.Offset = none := by
  unfold gapInBounds at h
  unfold sliceString
  rw [if_neg h]

/-- C16: for every source text and parameter list in which, for each `i >= 1`, the end
offset of parameter `i - 1`, a position in the text and so not negative, is at most the start
offset of parameter `i`, which is at most the length of the source text, the slice
`code[previousEnd:start]` is defined for every `i`, with `start - previousEnd` bytes, and the
visit does not panic; when the previous end offset is greater than the start offset, or the
start offset is past the end of the text, the slice is out of range and the iteration
panics. -/
theorem missingCommas_slice_in_bounds :
    (∀ (location : Location) (code : List Nat) (parameters : List Parameter)
        (element : Element),
      (∃ node, element = .FunctionDeclaration node (some { Parameters := parameters }) ∨
        element = .Expression (.FunctionExpression node (some { Parameters := parameters }))) →
      (∀ i previous parameter, 1 ≤ i → parameters[i - 1]? = some previous →
        parameters[i]? = some parameter →
        0 ≤ previous.EndPos.Offset ∧ gapOrdered code previous parameter) →
      (∀ i previous parameter, 1 ≤ i → parameters[i - 1]? = some previous →
        parameters[i]? = some parameter →
        ∃ gap, sliceString code previous.EndPos.Offset parameter.StartPos.Offset = some gap ∧
          (gap.length : Int) = parameter.StartPos.Offset - previous.EndPos.Offset) ∧
      (visit location code element).panic = none) ∧
    (∀ (location : Location) (code : List Nat) (parameters : List Parameter) (i : Nat)
        (previous parameter : Parameter),
      1 ≤ i → parameters[i - 1]? = some previous → parameters[i]? = some parameter →
      (previous.EndPos.Offset > parameter.StartPos.Offset ∨
        parameter.StartPos.Offset > (code.length : Int)) →
      sliceString code previous.EndPos.Offset parameter.StartPos.Offset = none ∧
      iteration location code parameters i = .error .sliceBoundsOutOfRange) := by
  constructor
  · intro location code parameters element helement hordered
    have hwf : ∀ i previous parameter, 1 ≤ i → parameters[i - 1]? = some previous →
        parameters[i]? = some parameter → gapInBounds code previous parameter := by
      intro i previous parameter hi hprevious hparameter
      obtain ⟨hnonneg, hlow, hhigh⟩ := hordered i previous parameter hi hprevious hparameter
      exact ⟨hnonneg, hlow, hhigh⟩
    constructor
    · intro i previous parameter hi hprevious hparameter
      have hb := hwf i previous parameter hi hprevious hparameter
      unfold gapInBounds at hb
      unfold sliceString
      rw [if_pos hb]
      refine ⟨_, rfl, ?_⟩
      rw [List.length_take, List.length_drop]
      omega
    · rw [visit_functionLike location code element parameters helement]
      unfold visitParameterList
      dsimp only
      rw [forRange_of_ok _ _ _ (iteration_ok_of_inBounds location code parameters hwf)]
  · intro location code parameters i previous parameter hi hprevious hparameter hbad
    have hnot : ¬ gapInBounds code previous parameter := by
      unfold gapInBounds
      omega
    have hslice := sliceString_none_of_not_inBounds hnot
    refine ⟨hslice, ?_⟩
    rw [iteration_eq hi hprevious hparameter, hslice]

/-- Witness for C16: the parameters of `a: Int b: Int`. -/
theorem missingCommas_slice_in_bounds_witness :
    (0 ≤ (parameterAt 6 11).EndPos.Offset ∧
      gapOrdered codeWithoutComma (parameterAt 6 11) (parameterAt 13 18)) ∧
    (visit "test" codeWithoutComma
      (.FunctionDeclaration (nodeAt 1 0 22)
        (some { Parameters := [parameterAt 6 11, parameterAt 13 18] }))).panic = none := by
  have hb : 0 ≤ (parameterAt 6 11).EndPos.Offset ∧
      gapOrdered codeWithoutComma (parameterAt 6 11) (parameterAt 13 18) := by
    constructor
    · decide
    · unfold gapOrdered; decide
  exact ⟨hb, (missingCommas_slice_in_bounds.1 "test" codeWithoutComma
    [parameterAt 6 11, parameterAt 13 18] _ ⟨_, Or.inl rfl⟩ (consecutive_pair hb)).2⟩

end SliceBounds

section Registry

theorem register_fresh (added : List (String × Analyzer)) :
    ∀ registry : List (String × Analyzer),
      (added.map Prod.fst).Nodup →
      (∀ binding ∈ registry, binding.1 ∉ added.map Prod.fst) →
      register registry added = .ok (registry ++ added) := by
  induction added with
  | nil => intro registry _ _; simp [register]
  | cons entry rest ih =>
    intro registry hnodup hfresh
    obtain ⟨name, analyzer⟩ := entry
    simp only [List.map_cons, List.nodup_cons] at hnodup
    have hany : registry.any (fun binding => binding.1 == name) = false := by
      rw [List.any_eq_false]
      intro binding hbinding
      have := hfresh binding hbinding
      simp only [List.map_cons, List.mem_cons, not_or] at this
      simpa using this.1
    unfold register
    simp only [registerAnalyzer, hany, Bool.false_eq_true, if_false]
    rw [ih (registry ++ [(name, analyzer)]) hnodup.2]
    · simp
    · intro binding hbinding
      rcases List.mem_append.mp hbinding with h | h
      · have := hfresh binding h
        simp only [List.map_cons, List.mem_cons, not_or] at this
        exact this.2
      · simp only [List.mem_singleton] at h
        subst h
        exact hnodup.1

/-- C18: the five names registered by the file are pairwise distinct and bound to pairwise
distinct analyzers; on every registry that holds none of the five names the five
registrations succeed and add the five bindings, whereas a registry that already holds one of
the names makes them fail with the duplicate-name error. -/
theorem registrations_distinct :
    (registrations.map Prod.fst).Nodup ∧
    (registrations.map Prod.snd).Nodup ∧
    registrations.map Prod.fst =
      [ "reference-to-optional", "deprecated-key-functions",
        "number-supertype-binary-operations", "parameter-list-missing-commas",
        "supertype-inference" ] ∧
    (∀ registry : List (String × Analyzer),
      (∀ binding ∈ registry, binding.1 ∉ registrations.map Prod.fst) →
      init registry = .ok (registry ++ registrations)) ∧
    init [("reference-to-optional", .Other 0)]
      = .error (.duplicateName "reference-to-optional") := by
  refine ⟨by decide, by decide, rfl, ?_, by decide⟩
  intro registry hfresh
  exact register_fresh registrations registry (by decide) hfresh

/-- Witness for C18. -/
theorem registrations_distinct_witness :
    (∀ binding ∈ [("unused-result", Analyzer.Other 0)],
      binding.1 ∉ registrations.map Prod.fst) ∧
    init [("unused-result", .Other 0)]
      = .ok ([("unused-result", .Other 0)] ++ registrations) := by
  have hfresh : ∀ binding ∈ [("unused-result", Analyzer.Other 0)],
      binding.1 ∉ registrations.map Prod.fst := by
    decide
  exact ⟨hfresh, registrations_distinct.2.2.2.1 _ hfresh⟩

end Registry

/-! ## Token type names: lemmas and theorems -/

section TokenTypeNames
set_option maxRecDepth 100000

theorem parseDecimal_formatDecimalCore (fuel : Nat) :
    ∀ (n : Nat) (digits : List Nat), n < fuel →
      List.foldl (fun value digit => 10 * value + (digit - 48)) 0
          (formatDecimalCore fuel n digits)
        = List.foldl (fun value digit => 10 * value + (digit - 48)) n digits := by
  induction fuel with
  | zero => intro n digits h; omega
  | succ fuel ih =>
    intro n digits h
    unfold formatDecimalCore
    dsimp only
    by_cases hsmall : n / 10 = 0
    · rw [if_pos hsmall]
      have hvalue : 10 * 0 + (48 + n % 10 - 48) = n := by omega
      simp only [List.foldl_cons, hvalue]
    · rw [if_neg hsmall, ih (n / 10) _ (by omega)]
      have hvalue : 10 * (n / 10) + (48 + n % 10 - 48) = n := by omega
      simp only [List.foldl_cons, hvalue]

theorem parseDecimal_formatDecimal (n : Nat) : parseDecimal (formatDecimal n) = n := by
  unfold parseDecimal formatDecimal
  rw [parseDecimal_formatDecimalCore (n + 1) n [] (by omega)]
  rfl

theorem formatDecimalCore_digits (fuel : Nat) :
    ∀ (n : Nat) (digits : List Nat), (∀ b ∈ digits, 48 ≤ b ∧ b ≤ 57) →
      ∀ b ∈ formatDecimalCore fuel n digits, 48 ≤ b ∧ b ≤ 57 := by
  induction fuel with
  | zero => intro n digits h; exact h
  | succ fuel ih =>
    intro n digits h
    have hcons : ∀ b ∈ (48 + n % 10) :: digits, 48 ≤ b ∧ b ≤ 57 := by
      intro b hb
      rcases List.mem_cons.mp hb with hb | hb
      · subst hb; omega
      · exact h b hb
    unfold formatDecimalCore
    dsimp only
    by_cases hsmall : n / 10 = 0
    · rw [if_pos hsmall]; exact hcons
    · rw [if_neg hsmall]; exact ih _ _ hcons

theorem formatDecimal_digits (n : Nat) : ∀ b ∈ formatDecimal n, 48 ≤ b ∧ b ≤ 57 :=
  formatDecimalCore_digits (n + 1) n [] (by simp)

theorem parseInt_of_digits (digits : List Nat) (h : ∀ b ∈ digits, 48 ≤ b ∧ b ≤ 57) :
    parseInt digits = (parseDecimal digits : Int) := by
  unfold parseInt
  split
  · rename_i rest
    have := h 45 (List.mem_cons_self _ _)
    omega
  · rfl

theorem parseInt_FormatInt (i : Int) : parseInt (FormatInt i) = i := by
  unfold FormatInt
  by_cases hneg : i < 0
  · rw [if_pos hneg]
    show - (parseDecimal (formatDecimal (-i).toNat) : Int) = i
    rw [parseDecimal_formatDecimal]
    omega
  · rw [if_neg hneg, parseInt_of_digits _ (formatDecimal_digits _), parseDecimal_formatDecimal]
    omega

theorem toInt64_injective {i j : Nat} (hi : i < 2 ^ 64) (hj : j < 2 ^ 64)
    (h : toInt64 i = toInt64 j) : i = j := by
  unfold toInt64 at h
  omega

theorem toInt64_of_lt {i : Nat} (hi : i < 2 ^ 63) : toInt64 i = (i : Int) := by
  unfold toInt64
  omega

theorem tokenTypeString_fallback {i : Nat} (hi : 26 ≤ i) :
    TokenType.String i = .ok (bytes "TokenType(" ++ FormatInt (toInt64 i) ++ bytes ")") := by
  unfold TokenType.String
  rw [if_pos (by simpa [_TokenType_index] using hi)]

theorem toOption_eq_some {result : Except Panic (List Nat)} {name : List Nat}
    (h : name ∈ result.toOption) : result = .ok name := by
  cases result with
  | error p => simp [Except.toOption] at h
  | ok value =>
    simp only [Except.toOption, Option.mem_def, Option.some.injEq] at h
    rw [h]

theorem tokenTypeString_names_table :
    ∀ i, i < 26 → ∃ name ∈ (TokenType.String i).toOption,
      name.take 10 ≠ bytes "TokenType(" := by
  decide

theorem tokenTypeString_names {i : Nat} (hi : i < 26) :
    ∃ name, TokenType.String i = .ok name ∧ name.take 10 ≠ bytes "TokenType(" := by
  obtain ⟨name, hname, htake⟩ := tokenTypeString_names_table i hi
  exact ⟨name, toOption_eq_some hname, htake⟩

theorem tokenTypeString_names_injective :
    ∀ i, i < 26 → ∀ j, j < 26 → TokenType.String i = TokenType.String j → i = j := by
  decide

theorem encodeRune_digitChar : ∀ d, d < 10 → encodeRune (Nat.digitChar d).toNat = [48 + d] := by
  decide

theorem formatDecimalCore_eq_toDigitsCore (fuel : Nat) :
    ∀ (n : Nat) (digits : List Char),
      (Nat.toDigitsCore 10 fuel n digits).flatMap (fun c => encodeRune c.toNat)
        = formatDecimalCore fuel n (digits.flatMap (fun c => encodeRune c.toNat)) := by
  induction fuel with
  | zero => intro n digits; rfl
  | succ fuel ih =>
    intro n digits
    unfold formatDecimalCore
    simp only [Nat.toDigitsCore]
    have hdigit := encodeRune_digitChar (n % 10) (Nat.mod_lt _ (by decide))
    by_cases hsmall : n / 10 = 0
    · rw [if_pos hsmall, if_pos hsmall]
      simp only [List.flatMap_cons, hdigit, List.singleton_append]
    · rw [if_neg hsmall, if_neg hsmall, ih]
      simp only [List.flatMap_cons, hdigit, List.singleton_append]

theorem formatDecimal_eq_repr (n : Nat) : formatDecimal n = bytes (Nat.repr n) := by
  unfold formatDecimal bytes Nat.repr Nat.toDigits
  rw [show (Nat.toDigitsCore 10 (n + 1) n []).asString.toList
    = Nat.toDigitsCore 10 (n + 1) n [] from rfl]
  rw [formatDecimalCore_eq_toDigitsCore]
  rfl


/-- C12: for each of the 26 token type constants, values 0 to 25, `String` returns the
identifier of the constant without its first five bytes, the prefix "Token": "Error" for 0,
"EOF" for 1, and so on up to "BlockCommentEnd" for 25. -/
theorem tokenTypeString_constant_names :
    (TokenType.String 0 = .ok (bytes "Error") ∧
      TokenType.String 1 = .ok (bytes "EOF") ∧
      TokenType.String 2 = .ok (bytes "Space") ∧
      TokenType.String 3 = .ok (bytes "Number") ∧
      TokenType.String 4 = .ok (bytes "Identifier") ∧
      TokenType.String 5 = .ok (bytes "String") ∧
      TokenType.String 6 = .ok (bytes "Plus") ∧
      TokenType.String 7 = .ok (bytes "Minus") ∧
      TokenType.String 8 = .ok (bytes "Star") ∧
      TokenType.String 9 = .ok (bytes "Slash") ∧
      TokenType.String 10 = .ok (bytes "NilCoalesce") ∧
      TokenType.String 11 = .ok (bytes "ParenOpen") ∧
      TokenType.String 12 = .ok (bytes "ParenClose") ∧
      TokenType.String 13 = .ok (bytes "BraceOpen") ∧
      TokenType.String 14 = .ok (bytes "BraceClose") ∧
      TokenType.String 15 = .ok (bytes "BracketOpen") ∧
      TokenType.String 16 = .ok (bytes "BracketClose") ∧
      TokenType.String 17 = .ok (bytes "QuestionMark") ∧
      TokenType.String 18 = .ok (bytes "Comma") ∧
      TokenType.String 19 = .ok (bytes "Colon") ∧
      TokenType.String 20 = .ok (bytes "LeftArrow") ∧
      TokenType.String 21 = .ok (bytes "Less") ∧
      TokenType.String 22 = .ok (bytes "Greater") ∧
      TokenType.String 23 = .ok (bytes "BlockCommentStart") ∧
      TokenType.String 24 = .ok (bytes "BlockCommentContent") ∧
      TokenType.String 25 = .ok (bytes "BlockCommentEnd")) ∧
    tokenTypeConstants.map Prod.snd = List.range 26 ∧
    tokenTypeConstants.map (fun constant => (bytes constant.1).take 5)
      = List.replicate 26 (bytes "Token") ∧
    tokenTypeConstants.map (fun constant => TokenType.String constant.2)
      = tokenTypeConstants.map (fun constant => .ok ((bytes constant.1).drop 5)) := by
  refine ⟨?_, by decide, by decide, by decide⟩
  repeat' constructor

/-- C13: for every token type value `i >= 26` below `2^63`, where the conversion `int64(i)`
keeps the value, `String` returns "TokenType(" followed by the decimal representation of `i`
followed by ")"; for every `i < 26` it returns no string that starts with "TokenType(". -/
theorem tokenTypeString_fallback_form :
    (∀ i : Nat, 26 ≤ i → i < 2 ^ 63 →
      TokenType.String i = .ok (bytes "TokenType(" ++ bytes (Nat.repr i) ++ bytes ")")) ∧
    (∀ i : Nat, i < 26 → ∀ rest : List Nat,
      TokenType.String i ≠ .ok (bytes "TokenType(" ++ rest)) := by
  constructor
  · intro i hlow hhigh
    rw [tokenTypeString_fallback hlow, toInt64_of_lt hhigh, ← formatDecimal_eq_repr]
    unfold FormatInt
    rw [if_neg (by omega), Int.toNat_ofNat]
  · intro i hi rest heq
    obtain ⟨name, hname, htake⟩ := tokenTypeString_names hi
    rw [hname] at heq
    simp only [Except.ok.injEq] at heq
    apply htake
    rw [heq, List.take_left' (by decide)]

/-- Witness for C13. -/
theorem tokenTypeString_fallback_form_witness :
    (26 ≤ 26 ∧ 26 < 2 ^ 63) ∧
    TokenType.String 26 = .ok (bytes "TokenType(" ++ bytes (Nat.repr 26) ++ bytes ")") ∧
    bytes "TokenType(" ++ bytes (Nat.repr 26) ++ bytes ")" = bytes "TokenType(26)" :=
  ⟨⟨by decide, by decide⟩,
    tokenTypeString_fallback_form.1 26 (by decide) (by decide), by decide⟩

/-- C17: `String` is injective on the values of an unsigned integer type of at most 64 bits:
`String(i) = String(j)` implies `i = j`; in particular the 26 names are pairwise distinct. -/
theorem tokenTypeString_injective :
    (∀ i j : Nat, i < 2 ^ 64 → j < 2 ^ 64 →
      TokenType.String i = TokenType.String j → i = j) ∧
    ((List.range 26).map TokenType.String).Nodup := by
  refine ⟨?_, by decide⟩
  have hmixed : ∀ i j : Nat, i < 26 → 26 ≤ j → TokenType.String i ≠ TokenType.String j := by
    intro i j hi hj heq
    obtain ⟨name, hname, htake⟩ := tokenTypeString_names hi
    rw [hname, tokenTypeString_fallback hj] at heq
    simp only [Except.ok.injEq] at heq
    apply htake
    rw [heq, List.append_assoc, List.take_left' (by decide)]
  intro i j hi hj heq
  by_cases hi26 : i < 26
  · by_cases hj26 : j < 26
    · exact tokenTypeString_names_injective i hi26 j hj26 heq
    · exact absurd heq (hmixed i j hi26 (by omega))
  · by_cases hj26 : j < 26
    · exact absurd heq.symm (hmixed j i hj26 (by omega))
    · rw [tokenTypeString_fallback (by omega), tokenTypeString_fallback (by omega)] at heq
      simp only [Except.ok.injEq, List.append_assoc] at heq
      have hmiddle := List.append_cancel_right (List.append_cancel_left heq)
      have hint : toInt64 i = toInt64 j := by
        rw [← parseInt_FormatInt (toInt64 i), ← parseInt_FormatInt (toInt64 j), hmiddle]
      exact toInt64_injective hi hj hint

/-- Witness for C17. -/
theorem tokenTypeString_injective_witness :
    ((300 : Nat) < 2 ^ 64 ∧ TokenType.String 300 = TokenType.String (3 * 100)) ∧
    (300 : Nat) = 3 * 100 :=
  ⟨⟨by decide, rfl⟩, tokenTypeString_injective.1 300 (3 * 100) (by decide) (by decide) rfl⟩

/-- C19: `_TokenType_index` has 27 entries that fit in a `uint8`, starts at 0, is strictly
increasing and ends with 218, the length of `_TokenType_name`. For every value `i`, either
`i >= 26` and the fallback branch is taken, or the entries at `i` and `i + 1` exist and
delimit a non-empty in-bounds substring of `_TokenType_name`, which `String` returns. `String`
never panics, and the 26 substrings concatenate to `_TokenType_name`. -/
theorem tokenTypeIndex_wellFormed :
    _TokenType_index.length = 27 ∧
    _TokenType_index[0]? = some 0 ∧
    List.Pairwise (fun low high => low < high) _TokenType_index ∧
    _TokenType_index.getLast? = some 218 ∧
    _TokenType_name.length = 218 ∧
    _TokenType_index.all (fun entry => decide (entry < 256)) = true ∧
    (∀ i : Nat,
      (26 ≤ i ∧
        TokenType.String i = .ok (bytes "TokenType(" ++ FormatInt (toInt64 i) ++ bytes ")")) ∨
      (i < 26 ∧ ∃ low high name,
        _TokenType_index[i]? = some low ∧ _TokenType_index[i + 1]? = some high ∧
        low < high ∧ high ≤ _TokenType_name.length ∧
        sliceString _TokenType_name (low : Int) (high : Int) = some name ∧
        name.length = high - low ∧ name ≠ [] ∧
        TokenType.String i = .ok name)) ∧
    (∀ i : Nat, ∃ name, TokenType.String i = .ok name) ∧
    (List.range 26).flatMap (fun i => ((TokenType.String i).toOption).getD [])
      = _TokenType_name := by
  have htable : ∀ i, i < 26 →
      ∃ low : Nat, low ∈ _TokenType_index[i]? ∧
        ∃ high : Nat, high ∈ _TokenType_index[i + 1]? ∧
        ∃ name : List Nat, name ∈ sliceString _TokenType_name (low : Int) (high : Int) ∧
          low < high ∧ high ≤ _TokenType_name.length ∧ name.length = high - low ∧ name ≠ [] ∧
          TokenType.String i = .ok name := by
    decide
  have hcases : ∀ i : Nat,
      (26 ≤ i ∧
        TokenType.String i = .ok (bytes "TokenType(" ++ FormatInt (toInt64 i) ++ bytes ")")) ∨
      (i < 26 ∧ ∃ low high name,
        _TokenType_index[i]? = some low ∧ _TokenType_index[i + 1]? = some high ∧
        low < high ∧ high ≤ _TokenType_name.length ∧
        sliceString _TokenType_name (low : Int) (high : Int) = some name ∧
        name.length = high - low ∧ name ≠ [] ∧
        TokenType.String i = .ok name) := by
    intro i
    by_cases hi : i < 26
    · right
      obtain ⟨low, hlow, high, hhigh, name, hname, h1, h2, h3, h4, h5⟩ := htable i hi
      exact ⟨hi, low, high, name, hlow, hhigh, h1, h2, hname, h3, h4, h5⟩
    · left
      exact ⟨by omega, tokenTypeString_fallback (by omega)⟩
  refine ⟨by decide, by decide, by decide, by decide, by decide, by decide, hcases, ?_,
    by decide⟩
  intro i
  rcases hcases i with ⟨_, h⟩ | ⟨_, _, _, name, _, _, _, _, _, _, _, h⟩
  · exact ⟨_, h⟩
  · exact ⟨name, h⟩

end TokenTypeNames

end Cadence
